import Mathlib

/-!
# Self-balancing robot: control loop of `src/main.cpp`

Shallow embedding of the globals, `setup()` and `loop()` of the sketch.

* C `float` values are modelled by `Flt`: finite values are exact rationals
  (rounding and overflow of finite results are not modelled), the IEEE special
  values `+inf`, `-inf` and `NaN` are kept, because the source divides by a
  `sampleTime` that can be zero.
* Calls into the hardware libraries (`mpu.*`, `Serial.*`, `drive`, `millis`)
  are inputs of one `loop()` call (`LoopInput`) and entries of its output trace
  (`Action`).
* The interrupt flag `mpuInterrupt` is written by the interrupt handler only; what
  the wait loop observes of it is given by the list of `WaitEvent`s.
-/

namespace Balance

/-! ## Floating point values -/

/-- Value of a C `float`: a finite number or one of the IEEE special values. -/
inductive Flt where
  | fin (q : ℚ)
  | pinf
  | ninf
  | nan
deriving DecidableEq

namespace Flt

/-- Unary minus. -/
def neg : Flt → Flt
  | fin a => fin (-a)
  | pinf => ninf
  | ninf => pinf
  | nan => nan

/-- Addition `a + b`; opposite infinities give NaN. -/
def add : Flt → Flt → Flt
  | fin a, fin b => fin (a + b)
  | fin _, pinf => pinf
  | fin _, ninf => ninf
  | pinf, fin _ => pinf
  | pinf, pinf => pinf
  | ninf, fin _ => ninf
  | ninf, ninf => ninf
  | pinf, ninf => nan
  | ninf, pinf => nan
  | nan, _ => nan
  | _, nan => nan

/-- Subtraction `a - b`. -/
def sub (a b : Flt) : Flt := add a (neg b)

/-- Infinity carrying the sign of the nonzero rational `a`. -/
def infOfSign (a : ℚ) : Flt := if 0 < a then pinf else ninf

/-- Multiplication `a * b`; zero times infinity gives NaN. -/
def mul : Flt → Flt → Flt
  | fin a, fin b => fin (a * b)
  | fin a, pinf => if a = 0 then nan else infOfSign a
  | fin a, ninf => if a = 0 then nan else infOfSign (-a)
  | pinf, fin b => if b = 0 then nan else infOfSign b
  | ninf, fin b => if b = 0 then nan else infOfSign (-b)
  | pinf, pinf => pinf
  | pinf, ninf => ninf
  | ninf, pinf => ninf
  | ninf, ninf => pinf
  | nan, _ => nan
  | _, nan => nan

/-- Division `a / b`. A finite zero divisor is the positive zero (the only divisor
of the program is `sampleTime`, converted from an unsigned integer): a nonzero
finite value over zero is the infinity of its sign, zero over zero is NaN. -/
def div : Flt → Flt → Flt
  | fin a, fin b =>
      if b = 0 then (if a = 0 then nan else infOfSign a) else fin (a / b)
  | fin _, pinf => fin 0
  | fin _, ninf => fin 0
  | pinf, fin b => if 0 ≤ b then pinf else ninf
  | ninf, fin b => if 0 ≤ b then ninf else pinf
  | pinf, pinf => nan
  | pinf, ninf => nan
  | ninf, pinf => nan
  | ninf, ninf => nan
  | nan, _ => nan
  | _, nan => nan

/-- Comparison `a < b`; false as soon as one side is NaN. -/
def lt : Flt → Flt → Bool
  | fin a, fin b => decide (a < b)
  | fin _, pinf => true
  | ninf, fin _ => true
  | ninf, pinf => true
  | _, _ => false

/-- Comparison `a > b`. -/
def gt (a b : Flt) : Bool := lt b a

/-- The value is a finite number in the closed interval from `lo` to `hi`. -/
def between (lo hi : ℚ) : Flt → Prop
  | fin q => lo ≤ q ∧ q ≤ hi
  | _ => False

instance (lo hi : ℚ) (x : Flt) : Decidable (between lo hi x) := by
  cases x <;> unfold between <;> infer_instance

/-- The value is a finite number. -/
def isFinite : Flt → Bool
  | fin _ => true
  | _ => false

end Flt

/-- Arduino macro `constrain(amt,low,high)`:
`((amt)<(low)?(low):((amt)>(high)?(high):(amt)))`. -/
def constrain (amt low high : Flt) : Flt :=
  if amt.lt low then low else if amt.gt high then high else amt

/-- Arduino constant `DEG_TO_RAD`, `0.017453292519943295769236907684886`. -/
def DEG_TO_RAD : ℚ := 17453292519943295769236907684886 / 1000000000000000000000000000000000

/-- Gain `Kp` of the source. -/
def Kp : ℚ := 75000
/-- Gain `Kd` of the source. -/
def Kd : ℚ := 750
/-- Gain `Ki` of the source. -/
def Ki : ℚ := 100

/-- Bit number of the FIFO overflow flag in the MPU6050 interrupt status. -/
def MPU6050_INTERRUPT_FIFO_OFLOW_BIT : Nat := 4
/-- Bit number of the DMP data-ready flag in the MPU6050 interrupt status. -/
def MPU6050_INTERRUPT_DMP_INT_BIT : Nat := 1

/-- AVR macro `_BV(bit)`, `1 << bit`. -/
def _BV (bit : Nat) : Nat := 2 ^ bit

/-! ## Data model -/

/-- A DMP packet, reduced to the roll angle `ypr[2]` that the library decoding
(`dmpGetQuaternion`, `dmpGetGravity`, `dmpGetYawPitchRoll`) derives from it; the
decoded angle is an `atan2` of finite arguments, hence finite. -/
structure Packet where
  roll : ℚ
deriving DecidableEq

/-- The two motor objects of the sketch. -/
inductive Motor where
  | RMotor
  | LMotor
deriving DecidableEq

/-- Calls into the hardware libraries, in the order `loop()` issues them. -/
inductive Action where
  | digitalWrite (pin : Nat) (high : Bool)
  | delay (ms : Nat)
  | getFIFOCount
  | getIntStatus
  | serialRead (b : Nat)
  | drive (m : Motor) (power : Flt)
  | driveBoth (power : Flt)
  | resetFIFO
  | println
  | getFIFOBytes
  | millis
deriving DecidableEq

/-- The global variables of the sketch. -/
structure State where
  dmpReady : Bool
  mpuIntStatus : Nat
  devStatus : Nat
  packetSize : Nat
  fifoCount : Nat
  fifoBuffer : Packet
  ypr2 : Flt
  currAngle : Flt
  targetAngle : Flt
  prevAngle : Flt
  error : Flt
  errorSum : Flt
  motorPower : Flt
  spMotorPower : Flt
  currTime : Nat
  prevTime : Nat
  sampleTime : Flt
  moveDirection : Int
  speedMult : Flt
deriving DecidableEq

/-- Values of the globals at program start (initialisers of the source, zero for
the globals without one, `moveDirection = 'S'`). -/
def initState : State where
  dmpReady := false
  mpuIntStatus := 0
  devStatus := 0
  packetSize := 0
  fifoCount := 0
  fifoBuffer := ⟨0⟩
  ypr2 := .fin 0
  currAngle := .fin 0
  targetAngle := .fin 0
  prevAngle := .fin 0
  error := .fin 0
  errorSum := .fin 0
  motorPower := .fin 0
  spMotorPower := .fin 0
  currTime := 0
  prevTime := 0
  sampleTime := .fin 0
  moveDirection := 83
  speedMult := .fin 0

/-- The command codes of `bluetooth_macros.h`, a header of the repository that is
not among the sources: taken as a parameter. -/
structure Codes where
  STOP : Int
  FORWARD : Int
  REVERSE : Int
  LEFT : Int
  RIGHT : Int
  FORLEFT : Int
  FORRIGHT : Int
  BACKLEFT : Int
  BACKRIGHT : Int
  SPEED0 : Int
  SPEED1 : Int
  SPEED2 : Int
  SPEED3 : Int
  SPEED4 : Int
  SPEED5 : Int
  SPEED6 : Int
  SPEED7 : Int
  SPEED8 : Int
  SPEED9 : Int
  SPEED10 : Int
deriving DecidableEq

/-- All case labels of the switch, in source order. -/
def Codes.labels (c : Codes) : List Int :=
  [c.STOP, c.FORWARD, c.REVERSE, c.LEFT, c.RIGHT, c.FORLEFT, c.FORRIGHT, c.BACKLEFT,
   c.BACKRIGHT, c.SPEED0, c.SPEED1, c.SPEED2, c.SPEED3, c.SPEED4, c.SPEED5, c.SPEED6,
   c.SPEED7, c.SPEED8, c.SPEED9, c.SPEED10]

/-- The case labels are pairwise distinct, as C requires of a switch. -/
def Codes.distinct (c : Codes) : Prop := c.labels.Nodup

instance (c : Codes) : Decidable c.distinct := by
  unfold Codes.distinct; infer_instance

/-- Modelled from the spec: `bluetooth_macros.h` is missing; the spec fixes only
that the codes are distinct single ASCII-range bytes. This table is one such
assignment, used to evaluate the model on concrete inputs. -/
def asciiCodes : Codes where
  STOP := 83
  FORWARD := 70
  REVERSE := 66
  LEFT := 76
  RIGHT := 82
  FORLEFT := 71
  FORRIGHT := 73
  BACKLEFT := 72
  BACKRIGHT := 74
  SPEED0 := 48
  SPEED1 := 49
  SPEED2 := 50
  SPEED3 := 51
  SPEED4 := 52
  SPEED5 := 53
  SPEED6 := 54
  SPEED7 := 55
  SPEED8 := 56
  SPEED9 := 57
  SPEED10 := 113

/-- The case of the switch that a value of `moveDirection` selects. -/
inductive Command where
  | STOP | FORWARD | REVERSE | LEFT | RIGHT
  | FORLEFT | FORRIGHT | BACKLEFT | BACKRIGHT
  | SPEED0 | SPEED1 | SPEED2 | SPEED3 | SPEED4 | SPEED5
  | SPEED6 | SPEED7 | SPEED8 | SPEED9 | SPEED10
  | default
deriving DecidableEq

/-- What one pass of the wait loop observes. -/
inductive WaitEvent where
  /-- The interrupt flag became set between the loop condition and the first
  `if`: `fifoCount = mpu.getFIFOCount()` stores `count`, then the loop ends. -/
  | lateInterrupt (count : Nat)
  /-- `Serial.available() > 0`, and `Serial.read()` returns the byte `b`. -/
  | serial (b : Nat)
  /-- No interrupt and no pending byte. -/
  | idle

/-- What the environment supplies to one call of `loop()`. -/
structure LoopInput where
  /-- Passes of the wait loop before the interrupt flag is seen by its condition. -/
  waitEvents : List WaitEvent
  /-- Result of `mpu.getIntStatus()`. -/
  intStatus : Nat
  /-- Result of `mpu.getFIFOCount()`. -/
  fifoCount : Nat
  /-- The packet that the k-th `mpu.getFIFOBytes` of this call delivers. -/
  packets : Nat → Packet
  /-- Result of `millis()`. -/
  millis : Nat

/-! ## Operations -/

/-- Conversion of the `int` returned by `Serial.read()` to the signed 8-bit `char`
variable `moveDirection`. -/
def toChar (b : Nat) : Int :=
  if b % 256 < 128 then ((b % 256 : Nat) : Int) else ((b % 256 : Nat) : Int) - 256

/-- Case label dispatch of `switch (moveDirection)`. -/
def decode (c : Codes) (m : Int) : Command :=
  if m = c.STOP then .STOP
  else if m = c.FORWARD then .FORWARD
  else if m = c.REVERSE then .REVERSE
  else if m = c.LEFT then .LEFT
  else if m = c.RIGHT then .RIGHT
  else if m = c.FORLEFT then .FORLEFT
  else if m = c.FORRIGHT then .FORRIGHT
  else if m = c.BACKLEFT then .BACKLEFT
  else if m = c.BACKRIGHT then .BACKRIGHT
  else if m = c.SPEED0 then .SPEED0
  else if m = c.SPEED1 then .SPEED1
  else if m = c.SPEED2 then .SPEED2
  else if m = c.SPEED3 then .SPEED3
  else if m = c.SPEED4 then .SPEED4
  else if m = c.SPEED5 then .SPEED5
  else if m = c.SPEED6 then .SPEED6
  else if m = c.SPEED7 then .SPEED7
  else if m = c.SPEED8 then .SPEED8
  else if m = c.SPEED9 then .SPEED9
  else if m = c.SPEED10 then .SPEED10
  else .default

/-- Bodies of the cases of `switch (moveDirection)`: the new globals and the
`drive` calls issued. -/
def execCommand (s : State) : Command → State × List Action
  | .STOP => ({ s with targetAngle := .fin 0 }, [])
  | .FORWARD => ({ s with targetAngle := s.speedMult.mul (.fin 5) }, [])
  | .REVERSE =>
      ({ s with targetAngle := (Flt.fin (-1)).mul (s.speedMult.mul (.fin 5)) }, [])
  | .LEFT =>
      (s, [.drive .LMotor s.spMotorPower.neg, .drive .RMotor s.spMotorPower])
  | .RIGHT =>
      (s, [.drive .LMotor s.spMotorPower, .drive .RMotor s.spMotorPower.neg])
  | .FORLEFT =>
      ({ s with targetAngle := s.speedMult.mul (.fin 5) },
       [.drive .LMotor (s.spMotorPower.div (.fin 2)),
        .drive .RMotor (s.spMotorPower.mul (.fin 2))])
  | .FORRIGHT =>
      ({ s with targetAngle := s.speedMult.mul (.fin 5) },
       [.drive .LMotor (s.spMotorPower.mul (.fin 2)),
        .drive .RMotor (s.spMotorPower.div (.fin 2))])
  | .BACKLEFT =>
      ({ s with targetAngle := (Flt.fin (-1)).mul (s.speedMult.mul (.fin 5)) },
       [.drive .LMotor (s.spMotorPower.mul (.fin 2)),
        .drive .RMotor (s.spMotorPower.div (.fin 2))])
  | .BACKRIGHT =>
      ({ s with targetAngle := (Flt.fin (-1)).mul (s.speedMult.mul (.fin 5)) },
       [.drive .LMotor (s.spMotorPower.mul (.fin 2)),
        .drive .RMotor (s.spMotorPower.div (.fin 2))])
  | .SPEED0 => ({ s with speedMult := .fin 0 }, [])
  | .SPEED1 => ({ s with speedMult := .fin (1 / 10) }, [])
  | .SPEED2 => ({ s with speedMult := .fin (2 / 10) }, [])
  | .SPEED3 => ({ s with speedMult := .fin (3 / 10) }, [])
  | .SPEED4 => ({ s with speedMult := .fin (4 / 10) }, [])
  | .SPEED5 => ({ s with speedMult := .fin (5 / 10) }, [])
  | .SPEED6 => ({ s with speedMult := .fin (6 / 10) }, [])
  | .SPEED7 => ({ s with speedMult := .fin (7 / 10) }, [])
  | .SPEED8 => ({ s with speedMult := .fin (8 / 10) }, [])
  | .SPEED9 => ({ s with speedMult := .fin (9 / 10) }, [])
  | .SPEED10 => ({ s with speedMult := .fin 1 }, [])
  | .default => (s, [])

/-- The branch `else if (Serial.available() > 0)` of the wait loop:
`moveDirection = Serial.read()` followed by the switch. -/
def processByte (c : Codes) (s : State) (b : Nat) : State × List Action :=
  let s1 := { s with moveDirection := toChar b }
  let r := execCommand s1 (decode c s1.moveDirection)
  (r.1, Action.serialRead b :: r.2)

/-- The wait loop `while (!mpuInterrupt && fifoCount < packetSize)`. The list holds
what the successive passes observe; the interrupt flag is seen set by the loop
condition once the list is used up. -/
def waitLoop (c : Codes) : State → List WaitEvent → State × List Action
  | s, [] => (s, [])
  | s, e :: es =>
    if s.fifoCount < s.packetSize then
      match e with
      | .lateInterrupt n => ({ s with fifoCount := n % 65536 }, [.getFIFOCount])
      | .idle => waitLoop c s es
      | .serial b =>
          let r := processByte c s b
          let r2 := waitLoop c r.1 es
          (r2.1, r.2 ++ r2.2)
    else (s, [])

/-- The drain loop `while (fifoCount >= packetSize)`: each pass reads one packet
into `fifoBuffer` and subtracts `packetSize` from `fifoCount`. The result is the
final count, the number of packets read and the buffer; `none` when the fuel runs
out (the source loop does not end when `packetSize` is zero). -/
def drain (packetSize : Nat) (packets : Nat → Packet) :
    Nat → Nat → Nat → Packet → Option (Nat × Nat × Packet)
  | 0, _, _, _ => none
  | fuel + 1, fifoCount, k, buf =>
    if fifoCount ≥ packetSize then
      drain packetSize packets fuel (fifoCount - packetSize) (k + 1) (packets k)
    else some (fifoCount, k, buf)

/-- Difference `a - b` of two `unsigned long` values (32 bits on the AVR). -/
def subU32 (a b : Nat) : Nat := (((a : Int) - (b : Int)) % 4294967296).toNat

/-- The derivative term `Kd * (currAngle - prevAngle) / sampleTime` of the PID
expression. -/
def derivativeTerm (currAngle prevAngle sampleTime : Flt) : Flt :=
  ((Flt.fin Kd).mul (currAngle.sub prevAngle)).div sampleTime

/-- The control cycle proper (source lines 297 to 323), after the drain. -/
def pidCycle (s : State) (now : Nat) : State × List Action :=
  let ypr2 := Flt.fin s.fifoBuffer.roll
  let currAngle := ypr2.mul (.fin DEG_TO_RAD)
  let error := currAngle.sub s.targetAngle
  let errorSum := s.errorSum.add error
  let errorSum := constrain errorSum (.fin (-300)) (.fin 300)
  let currTime := now % 4294967296
  let sampleTime := Flt.fin ((subU32 currTime s.prevTime : Nat) : ℚ)
  let motorPower :=
    (((Flt.fin Kp).mul error).add (((Flt.fin Ki).mul errorSum).mul sampleTime)).sub
      (derivativeTerm currAngle s.prevAngle sampleTime)
  let spMotorPower := constrain motorPower (.fin (-255)) (.fin 255)
  ({ s with
      ypr2 := ypr2, currAngle := currAngle, error := error, errorSum := errorSum,
      currTime := currTime, sampleTime := sampleTime, motorPower := motorPower,
      spMotorPower := spMotorPower, prevAngle := currAngle, prevTime := currTime },
   [.millis, .driveBoth spMotorPower])

/-- Source lines 267 to 271: the interrupt status and the FIFO count are read
into `mpuIntStatus` and `fifoCount`. -/
def readStatus (s : State) (i : LoopInput) : State :=
  { s with mpuIntStatus := i.intStatus % 256, fifoCount := i.fifoCount % 65536 }

/-- Source lines 272 to 338: the branches on the count and status just read
(too few bytes, overflow, data ready, none of these). In the data-ready branch the
FIFO is drained and the control cycle runs. -/
def cycle (s : State) (i : LoopInput) : Option (State × List Action) :=
  if s.fifoCount < s.packetSize then
    some (s, [])
  else if (s.mpuIntStatus &&& _BV MPU6050_INTERRUPT_FIFO_OFLOW_BIT ≠ 0)
      ∨ s.fifoCount ≥ 1024 then
    some (s, [.resetFIFO, .println])
  else if s.mpuIntStatus &&& _BV MPU6050_INTERRUPT_DMP_INT_BIT ≠ 0 then
    match drain s.packetSize i.packets (s.fifoCount + 1) s.fifoCount 0 s.fifoBuffer with
    | none => none
    | some d =>
        let r := pidCycle { s with fifoCount := d.1, fifoBuffer := d.2.2 } i.millis
        some (r.1, List.replicate d.2.1 Action.getFIFOBytes ++ r.2)
  else
    some (s, [])

/-- One call of `loop()`: the new globals and the library calls issued, `none`
when the call does not return. -/
def loop (c : Codes) (s : State) (i : LoopInput) : Option (State × List Action) :=
  if s.dmpReady = false then
    some (s, [.digitalWrite 9 true, .delay 1000, .digitalWrite 9 false, .delay 1000])
  else
    let w := waitLoop c s i.waitEvents
    match cycle (readStatus w.1 i) i with
    | none => none
    | some r => some (r.1, w.2 ++ [.getIntStatus, .getFIFOCount] ++ r.2)

/-- Function `setup()`: `status` is what `mpu.dmpInitialize()` returns, `intStatus`
and `size` what `mpu.getIntStatus()` and `mpu.dmpGetFIFOPacketSize()` return. -/
def setup (status intStatus size : Nat) (s : State) : State :=
  let s1 := { s with devStatus := status % 256 }
  if s1.devStatus = 0 then
    { s1 with mpuIntStatus := intStatus % 256, dmpReady := true,
              packetSize := size % 65536 }
  else s1

/-- Successive calls of `loop()`, with the concatenated trace; `none` as soon as
one call does not return. -/
def run (c : Codes) : State → List LoopInput → Option (State × List Action)
  | s, [] => some (s, [])
  | s, i :: is =>
    match loop c s i with
    | none => none
    | some (s1, t1) =>
      match run c s1 is with
      | none => none
      | some (s2, t2) => some (s2, t1 ++ t2)

/-! ## Predicates of the statements -/

/-- Input of one call of `loop()` whose wait loop sees the events `ev` and which
then reads the status `st` and the count `cnt`, every packet carrying the roll
`roll`, with the clock at `t`. -/
def mkInput (ev : List WaitEvent) (st cnt : Nat) (roll : ℚ) (t : Nat) : LoopInput :=
  ⟨ev, st, cnt, fun _ => ⟨roll⟩, t⟩

/-- Globals of the end-to-end example: the buffered packet has roll 10, the
setpoint is 0, the previous angle is the radian value of 8, the error sum is 0 and
the previous timestamp is 0. -/
def tiltState : State :=
  { initState with fifoBuffer := ⟨10⟩, prevAngle := .fin (8 * DEG_TO_RAD) }

/-- Value of `constrain` on rationals. -/
def clampQ (x lo hi : ℚ) : ℚ := if x < lo then lo else if hi < x then hi else x


/-- Invariant of the globals: the setpoint, the speed multiplier and the previous
angle are finite numbers and the error sum is a number between -300 and 300. -/
def Sane (s : State) : Prop :=
  s.targetAngle.isFinite = true ∧ s.speedMult.isFinite = true ∧
    s.prevAngle.isFinite = true ∧ Flt.between (-300) 300 s.errorSum

/-- The globals that the command switch never writes. -/
def cycleVars (s : State) :=
  (s.dmpReady, s.mpuIntStatus, s.devStatus, s.packetSize, s.fifoBuffer, s.ypr2,
    s.currAngle, s.prevAngle, s.error, s.errorSum, s.motorPower, s.spMotorPower,
    s.currTime, s.prevTime, s.sampleTime)

/-- The globals of the control cycle: angles, error terms, powers and times. -/
def pidVars (s : State) :=
  (s.ypr2, s.currAngle, s.prevAngle, s.error, s.errorSum, s.motorPower, s.spMotorPower,
    s.currTime, s.prevTime, s.sampleTime)

/-- The call ran the control cycle (it called `millis()`) with a zero sample time. -/
def zeroTick (r : State × List Action) : Prop :=
  Action.millis ∈ r.2 ∧ r.1.sampleTime = .fin 0

/-- Every control cycle of the calls `inputs`, started in `s`, has a nonzero sample
time. -/
def ticksNonzero (c : Codes) : State → List LoopInput → Prop
  | _, [] => True
  | s, i :: is =>
    match loop c s i with
    | none => True
    | some r => ¬ zeroTick r ∧ ticksNonzero c r.1 is

/-- The invariant `Sane`, and the clamped power is a number between -255 and 255. -/
def Good (s : State) : Prop := Sane s ∧ Flt.between (-255) 255 s.spMotorPower

/-- The case labels of the eleven speed commands, by level. -/
def Codes.speedLabels (c : Codes) : List Int :=
  [c.SPEED0, c.SPEED1, c.SPEED2, c.SPEED3, c.SPEED4, c.SPEED5, c.SPEED6, c.SPEED7,
   c.SPEED8, c.SPEED9, c.SPEED10]

/-- The speed multiplier is one of the eleven levels `k / 10`, and the setpoint is
plus or minus `5 * k / 10` for a level `k`. -/
def Discrete (s : State) : Prop :=
  (∃ k : ℕ, k ≤ 10 ∧ s.speedMult = .fin (k / 10)) ∧
  ∃ k : ℕ, k ≤ 10 ∧
    (s.targetAngle = .fin (5 * k / 10) ∨ s.targetAngle = .fin (-(5 * k / 10)))

/-- The bytes that a trace reads with `Serial.read()`, in order. -/
def serialBytes : List Action → List Nat
  | [] => []
  | .serialRead b :: t => b :: serialBytes t
  | _ :: t => serialBytes t

/-- The bytes of the serial events that a wait loop which is entered consumes: all
of them, up to the first late interrupt. -/
def eventBytes : List WaitEvent → List Nat
  | [] => []
  | .lateInterrupt _ :: _ => []
  | .serial b :: es => b :: eventBytes es
  | .idle :: es => eventBytes es

/-- The `drive` calls of a trace, in order. -/
def driveCalls : List Action → List Action
  | [] => []
  | .drive m p :: t => .drive m p :: driveCalls t
  | .driveBoth p :: t => .driveBoth p :: driveCalls t
  | _ :: t => driveCalls t

/-- What a command does, as far as a Directive is concerned: the new setpoint, the
new speed multiplier and the `drive` calls. -/
def effect (r : State × List Action) : Flt × Flt × List Action :=
  (r.1.targetAngle, r.1.speedMult, driveCalls r.2)

/-- Globals in which the cases of the switch are told apart: setpoint 7, speed
multiplier 0.5, clamped power 100. -/
def probeState : State :=
  { initState with targetAngle := .fin 7, speedMult := .fin (1 / 2), spMotorPower := .fin 100 }

/-- The label that selects a case of the switch; none for the default case. -/
def Codes.label (c : Codes) : Command → Option Int
  | .STOP => some c.STOP | .FORWARD => some c.FORWARD | .REVERSE => some c.REVERSE
  | .LEFT => some c.LEFT | .RIGHT => some c.RIGHT | .FORLEFT => some c.FORLEFT
  | .FORRIGHT => some c.FORRIGHT | .BACKLEFT => some c.BACKLEFT
  | .BACKRIGHT => some c.BACKRIGHT | .SPEED0 => some c.SPEED0 | .SPEED1 => some c.SPEED1
  | .SPEED2 => some c.SPEED2 | .SPEED3 => some c.SPEED3 | .SPEED4 => some c.SPEED4
  | .SPEED5 => some c.SPEED5 | .SPEED6 => some c.SPEED6 | .SPEED7 => some c.SPEED7
  | .SPEED8 => some c.SPEED8 | .SPEED9 => some c.SPEED9 | .SPEED10 => some c.SPEED10
  | .default => none

/-- The twenty cases of the switch that have a label, in source order. -/
def Command.recognized : List Command :=
  [.STOP, .FORWARD, .REVERSE, .LEFT, .RIGHT, .FORLEFT, .FORRIGHT, .BACKLEFT, .BACKRIGHT,
   .SPEED0, .SPEED1, .SPEED2, .SPEED3, .SPEED4, .SPEED5, .SPEED6, .SPEED7, .SPEED8,
   .SPEED9, .SPEED10]

/-- Globals after the drain loop of a call that read the count `s.fifoCount`: the
count is reduced modulo the packet size and the buffer holds the last whole packet
of the FIFO. -/
def afterDrain (s : State) (i : LoopInput) : State :=
  { s with fifoCount := s.fifoCount % s.packetSize,
           fifoBuffer := i.packets (s.fifoCount / s.packetSize - 1) }

/-! ## Invariants of the globals -/

theorem Flt.isFinite_iff (x : Flt) : x.isFinite = true ↔ ∃ q, x = .fin q := by
  cases x <;> simp [Flt.isFinite]

@[simp]
theorem Flt.isFinite_fin (q : ℚ) : (Flt.fin q).isFinite = true := rfl

theorem constrain_between (x : Flt) (lo hi : ℚ) (h : lo ≤ hi) (hx : x ≠ .nan) :
    Flt.between lo hi (constrain x (.fin lo) (.fin hi)) := by
  cases x with
  | fin q =>
    unfold constrain
    by_cases h1 : q < lo
    · simp [Flt.lt, h1, Flt.between, h]
    · by_cases h2 : hi < q
      · simp [Flt.lt, Flt.gt, h1, h2, Flt.between, h]
      · simp [Flt.lt, Flt.gt, h1, h2, Flt.between]
        exact ⟨not_lt.mp h1, not_lt.mp h2⟩
  | pinf => simp [constrain, Flt.lt, Flt.gt, Flt.between, h]
  | ninf => simp [constrain, Flt.lt, Flt.gt, Flt.between, h]
  | nan => exact absurd rfl hx

theorem sane_initState : Sane initState := by
  simp [Sane, initState, Flt.between]

theorem sane_setup (a b d : Nat) (s : State) (h : Sane s) : Sane (setup a b d s) := by
  simp only [setup]
  split_ifs <;> exact h

theorem sane_execCommand (s : State) (cmd : Command) (h : Sane s) :
    Sane (execCommand s cmd).1 := by
  obtain ⟨h1, h2, h3, h4⟩ := h
  obtain ⟨m, hm⟩ := (Flt.isFinite_iff _).1 h2
  cases cmd <;>
    simp [execCommand, Sane, h1, h3, h4, hm, Flt.mul]

theorem sane_processByte (c : Codes) (s : State) (b : Nat) (h : Sane s) :
    Sane (processByte c s b).1 := by
  unfold processByte
  exact sane_execCommand _ _ h

theorem sane_waitLoop (c : Codes) (ev : List WaitEvent) :
    ∀ s : State, Sane s → Sane (waitLoop c s ev).1 := by
  induction ev with
  | nil => intro s h; simpa [waitLoop] using h
  | cons e es ih =>
    intro s h
    unfold waitLoop
    split
    · cases e with
      | lateInterrupt n => exact h
      | serial b => exact ih _ (sane_processByte c s b h)
      | idle => exact ih _ h
    · exact h


theorem sane_pidCycle (s : State) (now : Nat) (h : Sane s) : Sane (pidCycle s now).1 := by
  obtain ⟨h1, h2, h3, h4⟩ := h
  obtain ⟨a, ha⟩ := (Flt.isFinite_iff _).1 h1
  cases he : s.errorSum with
  | fin e =>
    refine ⟨?_, ?_, ?_, ?_⟩
    · simpa [pidCycle] using h1
    · simpa [pidCycle] using h2
    · simp [pidCycle, Flt.mul]
    · simp only [pidCycle, ha, he, Flt.mul, Flt.sub, Flt.neg, Flt.add]
      exact constrain_between _ _ _ (by norm_num) (by simp)
  | pinf => simp [he, Flt.between] at h4
  | ninf => simp [he, Flt.between] at h4
  | nan => simp [he, Flt.between] at h4

theorem drain_total (p : Nat) (pk : Nat → Packet) (hp : 0 < p) :
    ∀ (fuel cnt k : Nat) (buf : Packet), cnt < fuel →
      ∃ r, drain p pk fuel cnt k buf = some r := by
  intro fuel
  induction fuel with
  | zero => intro cnt k buf h; omega
  | succ n ih =>
    intro cnt k buf h
    unfold drain
    split
    · exact ih _ _ _ (by omega)
    · exact ⟨_, rfl⟩


theorem cycleVars_execCommand (s : State) (cmd : Command) :
    cycleVars (execCommand s cmd).1 = cycleVars s ∧
      (execCommand s cmd).1.fifoCount = s.fifoCount := by
  cases cmd <;> exact ⟨rfl, rfl⟩

theorem cycleVars_processByte (c : Codes) (s : State) (b : Nat) :
    cycleVars (processByte c s b).1 = cycleVars s ∧
      (processByte c s b).1.fifoCount = s.fifoCount := by
  unfold processByte
  exact cycleVars_execCommand _ _

theorem cycleVars_waitLoop (c : Codes) (ev : List WaitEvent) :
    ∀ s : State, cycleVars (waitLoop c s ev).1 = cycleVars s := by
  induction ev with
  | nil => intro s; rfl
  | cons e es ih =>
    intro s
    unfold waitLoop
    split
    · cases e with
      | lateInterrupt n => rfl
      | serial b => exact (ih _).trans (cycleVars_processByte c s b).1
      | idle => exact ih _
    · rfl

theorem packetSize_waitLoop (c : Codes) (ev : List WaitEvent) (s : State) :
    (waitLoop c s ev).1.packetSize = s.packetSize := by
  have hw := cycleVars_waitLoop c ev s
  simp only [cycleVars, Prod.mk.injEq] at hw
  exact hw.2.2.2.1

theorem dmpReady_waitLoop (c : Codes) (ev : List WaitEvent) (s : State) :
    (waitLoop c s ev).1.dmpReady = s.dmpReady := by
  have hw := cycleVars_waitLoop c ev s
  simp only [cycleVars, Prod.mk.injEq] at hw
  exact hw.1

theorem cycle_total (s : State) (i : LoopInput) (hp : 0 < s.packetSize) :
    ∃ r, cycle s i = some r := by
  unfold cycle
  split_ifs
  · exact ⟨_, rfl⟩
  · exact ⟨_, rfl⟩
  · obtain ⟨r, hr⟩ := drain_total s.packetSize i.packets hp (s.fifoCount + 1)
        s.fifoCount 0 s.fifoBuffer (by omega)
    rw [hr]
    exact ⟨_, rfl⟩
  · exact ⟨_, rfl⟩

theorem loop_total (c : Codes) (s : State) (i : LoopInput)
    (h : s.dmpReady = false ∨ 0 < s.packetSize) : ∃ r, loop c s i = some r := by
  unfold loop
  by_cases hd : s.dmpReady = false
  · simp [hd]
  · have hp : 0 < s.packetSize := by
      rcases h with h | h
      · exact absurd h hd
      · exact h
    obtain ⟨r, hr⟩ := cycle_total (readStatus (waitLoop c s i.waitEvents).1 i) i
      (by simpa [readStatus, packetSize_waitLoop] using hp)
    simp only [hd, if_false, hr]
    exact ⟨_, rfl⟩

/-- The drain writes `fifoCount` and `fifoBuffer` only, the control cycle keeps
the invariant. -/
theorem sane_cycle (s : State) (i : LoopInput) (r : State × List Action)
    (h : Sane s) (hr : cycle s i = some r) : Sane r.1 := by
  unfold cycle at hr
  split_ifs at hr
  · cases hr; exact h
  · cases hr; exact h
  · split at hr
    · cases hr
    · cases hr
      exact sane_pidCycle _ _ h
  · cases hr; exact h

theorem sane_loop (c : Codes) (s : State) (i : LoopInput) (r : State × List Action)
    (h : Sane s) (hr : loop c s i = some r) : Sane r.1 := by
  unfold loop at hr
  split_ifs at hr
  · cases hr; exact h
  · simp only at hr
    split at hr
    · cases hr
    · rename_i r1 hc
      cases hr
      exact sane_cycle (readStatus (waitLoop c s i.waitEvents).1 i) i r1
        (sane_waitLoop c i.waitEvents s h) hc

theorem sane_run (c : Codes) (inputs : List LoopInput) :
    ∀ (s : State) (r : State × List Action), Sane s → run c s inputs = some r → Sane r.1 := by
  induction inputs with
  | nil => intro s r h hr; simp [run] at hr; cases hr; exact h
  | cons i is ih =>
    intro s r h hr
    unfold run at hr
    split at hr
    · cases hr
    · rename_i s1 t1 h1
      split at hr
      · cases hr
      · rename_i s2 t2 h2
        cases hr
        exact ih s1 (s2, t2) (sane_loop c s i (s1, t1) h h1) h2


theorem config_cycle (s : State) (i : LoopInput) (r : State × List Action)
    (hr : cycle s i = some r) :
    r.1.dmpReady = s.dmpReady ∧ r.1.packetSize = s.packetSize := by
  unfold cycle at hr
  split_ifs at hr
  · cases hr; exact ⟨rfl, rfl⟩
  · cases hr; exact ⟨rfl, rfl⟩
  · split at hr
    · cases hr
    · cases hr; exact ⟨rfl, rfl⟩
  · cases hr; exact ⟨rfl, rfl⟩

theorem config_loop (c : Codes) (s : State) (i : LoopInput) (r : State × List Action)
    (hr : loop c s i = some r) :
    r.1.dmpReady = s.dmpReady ∧ r.1.packetSize = s.packetSize := by
  unfold loop at hr
  split_ifs at hr
  · cases hr; exact ⟨rfl, rfl⟩
  · simp only at hr
    split at hr
    · cases hr
    · rename_i r1 hc
      cases hr
      have h := config_cycle _ i r1 hc
      simp only [readStatus, dmpReady_waitLoop, packetSize_waitLoop] at h
      exact h

theorem run_total (c : Codes) (inputs : List LoopInput) :
    ∀ s : State, (s.dmpReady = false ∨ 0 < s.packetSize) → ∃ r, run c s inputs = some r := by
  induction inputs with
  | nil => intro s _; exact ⟨_, rfl⟩
  | cons i is ih =>
    intro s h
    obtain ⟨r, hr⟩ := loop_total c s i h
    have hc := config_loop c s i r hr
    obtain ⟨r2, hr2⟩ := ih r.1 (by rw [hc.1, hc.2]; exact h)
    refine ⟨(r2.1, r.2 ++ r2.2), ?_⟩
    unfold run
    rw [hr]
    simp only [hr2]

theorem setup_config (status intStatus size : Nat) (h : 0 < size % 65536) :
    (setup status intStatus size initState).dmpReady = false ∨
      0 < (setup status intStatus size initState).packetSize := by
  simp only [setup]
  split_ifs
  · right; exact h
  · left; rfl


/-! ## Arithmetic on finite values -/

@[simp]
theorem Flt.fin_add (a b : ℚ) : (Flt.fin a).add (.fin b) = .fin (a + b) := rfl
@[simp]
theorem Flt.fin_sub (a b : ℚ) : (Flt.fin a).sub (.fin b) = .fin (a - b) := by
  simp [Flt.sub, Flt.neg, Flt.add, sub_eq_add_neg]
@[simp]
theorem Flt.fin_mul (a b : ℚ) : (Flt.fin a).mul (.fin b) = .fin (a * b) := rfl
@[simp]
theorem Flt.fin_neg (a : ℚ) : (Flt.fin a).neg = .fin (-a) := rfl
theorem Flt.fin_div (a b : ℚ) (h : b ≠ 0) : (Flt.fin a).div (.fin b) = .fin (a / b) := by
  simp [Flt.div, h]
@[simp]
theorem Flt.fin_lt (a b : ℚ) : (Flt.fin a).lt (.fin b) = decide (a < b) := rfl

theorem constrain_fin (x lo hi : ℚ) :
    constrain (.fin x) (.fin lo) (.fin hi) = .fin (clampQ x lo hi) := by
  unfold constrain clampQ
  simp only [Flt.gt, Flt.fin_lt, decide_eq_true_eq]
  split_ifs <;> rfl

theorem clampQ_mem (x lo hi : ℚ) (h : lo ≤ hi) : lo ≤ clampQ x lo hi ∧ clampQ x lo hi ≤ hi := by
  unfold clampQ
  split_ifs with h1 h2
  · exact ⟨le_refl _, h⟩
  · exact ⟨h, le_refl _⟩
  · exact ⟨not_lt.mp h1, not_lt.mp h2⟩

/-- The sign of a clamped value is the sign of the value. -/
theorem constrain_sign (x : Flt) (lo hi : ℚ) (hlo : lo < 0) (hhi : 0 < hi) :
    ((constrain x (.fin lo) (.fin hi)).lt (.fin 0) = x.lt (.fin 0)) ∧
    ((Flt.fin 0).lt (constrain x (.fin lo) (.fin hi)) = (Flt.fin 0).lt x) := by
  cases x with
  | fin q =>
    rw [constrain_fin]
    unfold clampQ
    simp only [Flt.fin_lt]
    split_ifs with h1 h2
    · constructor
      · simp [hlo, lt_trans h1 hlo]
      · simp [not_lt.mpr (le_of_lt hlo), not_lt.mpr (le_of_lt (lt_trans h1 hlo))]
    · constructor
      · simp [not_lt.mpr (le_of_lt hhi), not_lt.mpr (le_of_lt (lt_trans hhi h2))]
      · simp [hhi, lt_trans hhi h2]
    · exact ⟨rfl, rfl⟩
  | pinf => simp [constrain, Flt.lt, Flt.gt, hhi, not_lt.mpr (le_of_lt hhi)]
  | ninf => simp [constrain, Flt.lt, Flt.gt, hlo, not_lt.mpr (le_of_lt hlo)]
  | nan => simp [constrain, Flt.lt, Flt.gt]

/-- The control cycle on finite inputs with a nonzero sample time. -/
theorem pidCycle_fin (s : State) (now : Nat) (a e p : ℚ)
    (ha : s.targetAngle = .fin a) (he : s.errorSum = .fin e) (hp : s.prevAngle = .fin p)
    (hdt : subU32 (now % 4294967296) s.prevTime ≠ 0) :
    (pidCycle s now).1.error = .fin (s.fifoBuffer.roll * DEG_TO_RAD - a) ∧
    (pidCycle s now).1.errorSum
      = .fin (clampQ (e + (s.fifoBuffer.roll * DEG_TO_RAD - a)) (-300) 300) ∧
    (pidCycle s now).1.sampleTime = .fin (subU32 (now % 4294967296) s.prevTime : ℕ) ∧
    (pidCycle s now).1.motorPower
      = .fin (Kp * (s.fifoBuffer.roll * DEG_TO_RAD - a)
          + Ki * clampQ (e + (s.fifoBuffer.roll * DEG_TO_RAD - a)) (-300) 300
              * (subU32 (now % 4294967296) s.prevTime : ℕ)
          - Kd * (s.fifoBuffer.roll * DEG_TO_RAD - p)
              / (subU32 (now % 4294967296) s.prevTime : ℕ)) ∧
    (pidCycle s now).1.spMotorPower
      = .fin (clampQ (Kp * (s.fifoBuffer.roll * DEG_TO_RAD - a)
          + Ki * clampQ (e + (s.fifoBuffer.roll * DEG_TO_RAD - a)) (-300) 300
              * (subU32 (now % 4294967296) s.prevTime : ℕ)
          - Kd * (s.fifoBuffer.roll * DEG_TO_RAD - p)
              / (subU32 (now % 4294967296) s.prevTime : ℕ)) (-255) 255) := by
  have hq : ((subU32 (now % 4294967296) s.prevTime : ℕ) : ℚ) ≠ 0 := by
    exact_mod_cast hdt
  simp only [pidCycle, derivativeTerm, ha, he, hp, Flt.fin_mul, Flt.fin_sub, Flt.fin_add,
    constrain_fin, Flt.fin_div _ _ hq, and_self]


theorem Flt.between_iff (lo hi : ℚ) (x : Flt) :
    Flt.between lo hi x ↔ ∃ q, x = .fin q ∧ lo ≤ q ∧ q ≤ hi := by
  cases x <;> simp [Flt.between]

theorem spMotorPower_waitLoop (c : Codes) (ev : List WaitEvent) (s : State) :
    (waitLoop c s ev).1.spMotorPower = s.spMotorPower := by
  have hw := cycleVars_waitLoop c ev s
  simp only [cycleVars, Prod.mk.injEq] at hw
  exact hw.2.2.2.2.2.2.2.2.2.2.2.1

theorem between_steering (x : Flt) (h : Flt.between (-255) 255 x) :
    Flt.between (-255) 255 x.neg ∧ Flt.between (-255) 255 (x.div (.fin 2)) ∧
      Flt.between (-510) 510 (x.mul (.fin 2)) ∧ Flt.between (-510) 510 x ∧
      Flt.between (-510) 510 x.neg ∧ Flt.between (-510) 510 (x.div (.fin 2)) := by
  cases x with
  | fin q =>
    simp only [Flt.between] at h
    obtain ⟨h1, h2⟩ := h
    simp only [Flt.fin_neg, Flt.fin_mul, Flt.fin_div q 2 (by norm_num), Flt.between]
    refine ⟨⟨?_, ?_⟩, ⟨?_, ?_⟩, ⟨?_, ?_⟩, ⟨?_, ?_⟩, ⟨?_, ?_⟩, ⟨?_, ?_⟩⟩ <;> linarith
  | pinf => simp [Flt.between] at h
  | ninf => simp [Flt.between] at h
  | nan => simp [Flt.between] at h

/-- The power values that the cases of the switch pass to `drive`. -/
theorem drive_execCommand (s : State) (cmd : Command) (m : Motor) (p : Flt)
    (h : Action.drive m p ∈ (execCommand s cmd).2) :
    p = s.spMotorPower ∨ p = s.spMotorPower.neg ∨ p = s.spMotorPower.div (.fin 2) ∨
      p = s.spMotorPower.mul (.fin 2) := by
  cases cmd <;> simp [execCommand] at h <;> rcases h with h | h <;> simp [h.2]

theorem drive_execCommand_between (s : State) (cmd : Command) (m : Motor) (p : Flt)
    (hs : Flt.between (-255) 255 s.spMotorPower)
    (h : Action.drive m p ∈ (execCommand s cmd).2) : Flt.between (-510) 510 p := by
  have hb := between_steering _ hs
  rcases drive_execCommand s cmd m p h with h | h | h | h <;> rw [h]
  · exact hb.2.2.2.1
  · exact hb.2.2.2.2.1
  · exact hb.2.2.2.2.2
  · exact hb.2.2.1

theorem trace_execCommand (s : State) (cmd : Command) (a : Action)
    (h : a ∈ (execCommand s cmd).2) : ∃ m p, a = .drive m p := by
  cases cmd <;> simp [execCommand] at h <;> rcases h with h | h <;> exact ⟨_, _, h⟩

theorem spMotorPower_processByte (c : Codes) (s : State) (b : Nat) :
    (processByte c s b).1.spMotorPower = s.spMotorPower := by
  have hw := (cycleVars_processByte c s b).1
  simp only [cycleVars, Prod.mk.injEq] at hw
  exact hw.2.2.2.2.2.2.2.2.2.2.2.1

theorem trace_processByte (c : Codes) (s : State) (b : Nat) (a : Action)
    (h : a ∈ (processByte c s b).2) :
    a = .serialRead b ∨ ∃ m p, a = .drive m p ∧
      (p = s.spMotorPower ∨ p = s.spMotorPower.neg ∨ p = s.spMotorPower.div (.fin 2) ∨
        p = s.spMotorPower.mul (.fin 2)) := by
  unfold processByte at h
  simp only [List.mem_cons] at h
  rcases h with h | h
  · exact Or.inl h
  · obtain ⟨m, p, hmp⟩ := trace_execCommand _ _ a h
    subst hmp
    exact Or.inr ⟨m, p, rfl, drive_execCommand { s with moveDirection := toChar b } _ m p h⟩

/-- The wait loop issues only `Serial.read`, `getFIFOCount` and steering `drive`
calls, the latter with values of the four forms derived from `spMotorPower`. -/
theorem trace_waitLoop (c : Codes) (ev : List WaitEvent) :
    ∀ (s : State) (a : Action), a ∈ (waitLoop c s ev).2 →
      a = .getFIFOCount ∨ (∃ b, a = .serialRead b) ∨
      ∃ m p, a = .drive m p ∧
        (p = s.spMotorPower ∨ p = s.spMotorPower.neg ∨
          p = s.spMotorPower.div (.fin 2) ∨ p = s.spMotorPower.mul (.fin 2)) := by
  induction ev with
  | nil => intro s a h; simp [waitLoop] at h
  | cons e es ih =>
    intro s a h
    unfold waitLoop at h
    split at h
    · cases e with
      | lateInterrupt n =>
        simp only [List.mem_singleton] at h
        exact Or.inl h
      | idle => exact ih s a h
      | serial b =>
        simp only [List.mem_append] at h
        rcases h with h | h
        · rcases trace_processByte c s b a h with h1 | h1
          · exact Or.inr (Or.inl ⟨b, h1⟩)
          · exact Or.inr (Or.inr h1)
        · have := ih _ a h
          rw [spMotorPower_processByte] at this
          exact this
    · simp at h

theorem drive_waitLoop_between (c : Codes) (ev : List WaitEvent) (s : State) (m : Motor)
    (p : Flt) (hs : Flt.between (-255) 255 s.spMotorPower)
    (h : Action.drive m p ∈ (waitLoop c s ev).2) : Flt.between (-510) 510 p := by
  have hb := between_steering _ hs
  rcases trace_waitLoop c ev s _ h with h1 | ⟨b, h1⟩ | ⟨m1, p1, h1, h2⟩
  · cases h1
  · cases h1
  · cases h1
    rcases h2 with h | h | h | h <;> rw [h]
    · exact hb.2.2.2.1
    · exact hb.2.2.2.2.1
    · exact hb.2.2.2.2.2
    · exact hb.2.2.1

/-- One branch call from a good state with a nonzero sample time: the state stays
good, the only `drive` call is the one of the control cycle, with a value between
-255 and 255. -/
theorem good_cycle (s : State) (i : LoopInput) (r : State × List Action)
    (h : Good s) (hr : cycle s i = some r) (hz : ¬ zeroTick r) :
    Good r.1 ∧ (∀ p, Action.driveBoth p ∈ r.2 → Flt.between (-255) 255 p) ∧
      ∀ m p, Action.drive m p ∉ r.2 := by
  have hsane := sane_cycle s i r h.1 hr
  unfold cycle at hr
  split_ifs at hr
  · cases hr; exact ⟨h, by simp, by simp⟩
  · cases hr; exact ⟨h, by simp, by simp⟩
  · split at hr
    · cases hr
    · rename_i d hd
      cases hr
      obtain ⟨h1, h2, h3, h4⟩ := h.1
      obtain ⟨a, ha⟩ := (Flt.isFinite_iff _).1 h1
      obtain ⟨p, hp⟩ := (Flt.isFinite_iff _).1 h3
      obtain ⟨e, he, -⟩ := (Flt.between_iff _ _ _).1 h4
      have hdt : subU32 (i.millis % 4294967296) s.prevTime ≠ 0 := by
        intro h0
        apply hz
        refine ⟨by simp [pidCycle], ?_⟩
        simp [pidCycle, h0]
      have hf := pidCycle_fin { s with fifoCount := d.1, fifoBuffer := d.2.2 } i.millis
        a e p ha he hp hdt
      have hsp := hf.2.2.2.2
      have hbt : Flt.between (-255) 255
          (pidCycle { s with fifoCount := d.1, fifoBuffer := d.2.2 } i.millis).1.spMotorPower := by
        rw [hsp]
        exact clampQ_mem _ _ _ (by norm_num)
      refine ⟨⟨hsane, hbt⟩, ?_, ?_⟩
      · intro q hq
        simp [pidCycle] at hq
        rw [hq]
        simpa [pidCycle] using hbt
      · intro m q hq
        simp [pidCycle] at hq
  · cases hr; exact ⟨h, by simp, by simp⟩


theorem good_waitLoop (c : Codes) (ev : List WaitEvent) (s : State) (h : Good s) :
    Good (waitLoop c s ev).1 :=
  ⟨sane_waitLoop c ev s h.1, by rw [spMotorPower_waitLoop]; exact h.2⟩

theorem good_loop (c : Codes) (s : State) (i : LoopInput) (r : State × List Action)
    (h : Good s) (hr : loop c s i = some r) (hz : ¬ zeroTick r) :
    Good r.1 ∧ (∀ p, Action.driveBoth p ∈ r.2 → Flt.between (-255) 255 p) ∧
      ∀ m p, Action.drive m p ∈ r.2 → Flt.between (-510) 510 p := by
  unfold loop at hr
  split_ifs at hr
  · cases hr; exact ⟨h, by simp, by simp⟩
  · simp only at hr
    split at hr
    · cases hr
    · rename_i r1 hc
      cases hr
      have hg : Good (readStatus (waitLoop c s i.waitEvents).1 i) := good_waitLoop c _ s h
      have hz1 : ¬ zeroTick r1 := by
        intro hz1
        exact hz ⟨by simp [hz1.1], hz1.2⟩
      obtain ⟨g1, g2, g3⟩ := good_cycle _ i r1 hg hc hz1
      refine ⟨g1, ?_, ?_⟩
      · intro p hp
        simp only [List.mem_append, List.mem_cons, List.mem_singleton, List.not_mem_nil,
          or_false] at hp
        rcases hp with (hp | hp | hp) | hp
        · rcases trace_waitLoop c _ s _ hp with h1 | ⟨b, h1⟩ | ⟨m1, p1, h1, -⟩ <;> cases h1
        · cases hp
        · cases hp
        · exact g2 p hp
      · intro m p hp
        simp only [List.mem_append, List.mem_cons, List.mem_singleton, List.not_mem_nil,
          or_false] at hp
        rcases hp with (hp | hp | hp) | hp
        · exact drive_waitLoop_between c _ s m p h.2 hp
        · cases hp
        · cases hp
        · exact absurd hp (g3 m p)

theorem good_run (c : Codes) (inputs : List LoopInput) :
    ∀ (s : State) (r : State × List Action), Good s → run c s inputs = some r →
      ticksNonzero c s inputs →
      Good r.1 ∧ (∀ p, Action.driveBoth p ∈ r.2 → Flt.between (-255) 255 p) ∧
        ∀ m p, Action.drive m p ∈ r.2 → Flt.between (-510) 510 p := by
  induction inputs with
  | nil =>
    intro s r h hr _
    simp [run] at hr
    cases hr
    exact ⟨h, by simp, by simp⟩
  | cons i is ih =>
    intro s r h hr ht
    unfold run at hr
    unfold ticksNonzero at ht
    split at hr
    · cases hr
    · rename_i s1 t1 h1
      rw [h1] at ht
      split at hr
      · cases hr
      · rename_i s2 t2 h2
        cases hr
        obtain ⟨g1, g2, g3⟩ := good_loop c s i (s1, t1) h h1 ht.1
        obtain ⟨k1, k2, k3⟩ := ih s1 (s2, t2) g1 h2 ht.2
        refine ⟨k1, ?_, ?_⟩
        · intro p hp
          rcases List.mem_append.1 hp with hp | hp
          · exact g2 p hp
          · exact k2 p hp
        · intro m p hp
          rcases List.mem_append.1 hp with hp | hp
          · exact g3 m p hp
          · exact k3 m p hp

theorem good_setup (a b d : Nat) : Good (setup a b d initState) := by
  refine ⟨sane_setup _ _ _ _ sane_initState, ?_⟩
  simp only [setup]
  split_ifs <;> simp [initState, Flt.between]


/-- The status byte 2 has the overflow bit clear. -/
theorem land_2_16 : (2 &&& 16 : Nat) = 0 := by decide

theorem clampQ_nonneg (x lo hi : ℚ) (hx : 0 ≤ x) (hhi : 0 ≤ hi) : 0 ≤ clampQ x lo hi := by
  unfold clampQ
  split_ifs with h1 h2
  · linarith
  · exact hhi
  · exact hx

theorem clampQ_of_gt (x lo hi : ℚ) (h : lo ≤ hi) (hx : hi < x) : clampQ x lo hi = hi := by
  unfold clampQ
  rw [if_neg (not_lt.mpr (le_of_lt (lt_of_le_of_lt h hx))), if_pos hx]

theorem DEG_TO_RAD_bounds : (17 / 1000 : ℚ) < DEG_TO_RAD ∧ DEG_TO_RAD < 18 / 1000 := by
  norm_num [DEG_TO_RAD]

/-- With pairwise distinct labels every label selects its own case. -/
theorem decode_label (c : Codes) (h : c.distinct) :
    decode c c.STOP = .STOP ∧ decode c c.FORWARD = .FORWARD ∧
    decode c c.REVERSE = .REVERSE ∧ decode c c.LEFT = .LEFT ∧ decode c c.RIGHT = .RIGHT ∧
    decode c c.FORLEFT = .FORLEFT ∧ decode c c.FORRIGHT = .FORRIGHT ∧
    decode c c.BACKLEFT = .BACKLEFT ∧ decode c c.BACKRIGHT = .BACKRIGHT ∧
    decode c c.SPEED0 = .SPEED0 ∧ decode c c.SPEED1 = .SPEED1 ∧
    decode c c.SPEED2 = .SPEED2 ∧ decode c c.SPEED3 = .SPEED3 ∧
    decode c c.SPEED4 = .SPEED4 ∧ decode c c.SPEED5 = .SPEED5 ∧
    decode c c.SPEED6 = .SPEED6 ∧ decode c c.SPEED7 = .SPEED7 ∧
    decode c c.SPEED8 = .SPEED8 ∧ decode c c.SPEED9 = .SPEED9 ∧
    decode c c.SPEED10 = .SPEED10 := by
  simp only [Codes.distinct, Codes.labels, List.nodup_cons, List.mem_cons, List.mem_singleton,
    not_or, List.not_mem_nil, not_false_eq_true, List.nodup_nil, and_true] at h
  obtain ⟨h1, h2, h3, h4, h5, h6, h7, h8, h9, h10, h11, h12, h13, h14, h15, h16, h17, h18,
    h19⟩ := h
  unfold decode
  refine ⟨?_, ?_, ?_, ?_, ?_, ?_, ?_, ?_, ?_, ?_, ?_, ?_, ?_, ?_, ?_, ?_, ?_, ?_, ?_, ?_⟩ <;>
    simp [h1, h2, h3, h4, h5, h6, h7, h8, h9, h10, h11, h12, h13, h14, h15, h16, h17, h18,
      h19, eq_comm]

theorem processByte_eq (c : Codes) (s : State) (b : Nat) (cmd : Command)
    (h : decode c (toChar b) = cmd) :
    processByte c s b =
      ((execCommand { s with moveDirection := toChar b } cmd).1,
        Action.serialRead b :: (execCommand { s with moveDirection := toChar b } cmd).2) := by
  unfold processByte
  simp only [h]

theorem pidVars_waitLoop (c : Codes) (ev : List WaitEvent) (s : State) :
    pidVars (waitLoop c s ev).1 = pidVars s := by
  have hw := cycleVars_waitLoop c ev s
  simp only [cycleVars, Prod.mk.injEq] at hw
  simp only [pidVars, Prod.mk.injEq]
  tauto

/-- The wait loop is not entered when a full packet is already counted. -/
theorem waitLoop_skip (c : Codes) (s : State) (ev : List WaitEvent)
    (h : s.packetSize ≤ s.fifoCount) : waitLoop c s ev = (s, []) := by
  cases ev with
  | nil => rfl
  | cons e es =>
    unfold waitLoop
    rw [if_neg (not_lt.mpr h)]

theorem loop_of_cycle (c : Codes) (s : State) (i : LoopInput) (r : State × List Action)
    (hd : s.dmpReady = true)
    (hc : cycle (readStatus (waitLoop c s i.waitEvents).1 i) i = some r) :
    loop c s i = some (r.1,
      (waitLoop c s i.waitEvents).2 ++ [.getIntStatus, .getFIFOCount] ++ r.2) := by
  unfold loop
  simp only [hd, Bool.true_eq_false, if_false, hc]

theorem cycle_spurious (s : State) (i : LoopInput) (h : s.fifoCount < s.packetSize) :
    cycle s i = some (s, []) := by
  unfold cycle
  rw [if_pos h]

theorem cycle_overflow (s : State) (i : LoopInput) (h1 : s.packetSize ≤ s.fifoCount)
    (h2 : (s.mpuIntStatus &&& _BV MPU6050_INTERRUPT_FIFO_OFLOW_BIT ≠ 0)
      ∨ s.fifoCount ≥ 1024) :
    cycle s i = some (s, [.resetFIFO, .println]) := by
  unfold cycle
  rw [if_neg (not_lt.mpr h1), if_pos h2]

/-! ## Commands, drain and skipped calls -/

theorem decode_default (c : Codes) (m : Int) (h : m ∉ c.labels) : decode c m = .default := by
  simp only [Codes.labels, List.mem_cons, List.mem_singleton, not_or, List.not_mem_nil,
    or_false] at h
  obtain ⟨h1, h2, h3, h4, h5, h6, h7, h8, h9, h10, h11, h12, h13, h14, h15, h16, h17, h18,
    h19, h20⟩ := h
  unfold decode
  simp [h1, h2, h3, h4, h5, h6, h7, h8, h9, h10, h11, h12, h13, h14, h15, h16, h17, h18,
    h19, h20]

/-- The byte value that a case of the switch matches: its label, or the given value
itself outside all labels. -/
theorem decode_spec (c : Codes) (m : Int) :
    c.label (decode c m) = some m ∨ (decode c m = .default ∧ m ∉ c.labels) := by
  by_cases h0 : m = c.STOP
  · left; subst h0; simp only [decode, Codes.label, if_true, if_false]
  by_cases h1 : m = c.FORWARD
  · left; subst h1; simp only [decode, Codes.label, h0, if_true, if_false]
  by_cases h2 : m = c.REVERSE
  · left; subst h2; simp only [decode, Codes.label, h0, h1, if_true, if_false]
  by_cases h3 : m = c.LEFT
  · left; subst h3; simp only [decode, Codes.label, h0, h1, h2, if_true, if_false]
  by_cases h4 : m = c.RIGHT
  · left; subst h4; simp only [decode, Codes.label, h0, h1, h2, h3, if_true, if_false]
  by_cases h5 : m = c.FORLEFT
  · left; subst h5; simp only [decode, Codes.label, h0, h1, h2, h3, h4, if_true, if_false]
  by_cases h6 : m = c.FORRIGHT
  · left; subst h6; simp only [decode, Codes.label, h0, h1, h2, h3, h4, h5, if_true, if_false]
  by_cases h7 : m = c.BACKLEFT
  · left; subst h7; simp only [decode, Codes.label, h0, h1, h2, h3, h4, h5, h6, if_true, if_false]
  by_cases h8 : m = c.BACKRIGHT
  · left; subst h8; simp only [decode, Codes.label, h0, h1, h2, h3, h4, h5, h6, h7, if_true, if_false]
  by_cases h9 : m = c.SPEED0
  · left; subst h9; simp only [decode, Codes.label, h0, h1, h2, h3, h4, h5, h6, h7, h8, if_true, if_false]
  by_cases h10 : m = c.SPEED1
  · left; subst h10; simp only [decode, Codes.label, h0, h1, h2, h3, h4, h5, h6, h7, h8, h9, if_true, if_false]
  by_cases h11 : m = c.SPEED2
  · left; subst h11; simp only [decode, Codes.label, h0, h1, h2, h3, h4, h5, h6, h7, h8, h9, h10, if_true, if_false]
  by_cases h12 : m = c.SPEED3
  · left; subst h12; simp only [decode, Codes.label, h0, h1, h2, h3, h4, h5, h6, h7, h8, h9, h10, h11, if_true, if_false]
  by_cases h13 : m = c.SPEED4
  · left; subst h13; simp only [decode, Codes.label, h0, h1, h2, h3, h4, h5, h6, h7, h8, h9, h10, h11, h12, if_true, if_false]
  by_cases h14 : m = c.SPEED5
  · left; subst h14; simp only [decode, Codes.label, h0, h1, h2, h3, h4, h5, h6, h7, h8, h9, h10, h11, h12, h13, if_true, if_false]
  by_cases h15 : m = c.SPEED6
  · left; subst h15; simp only [decode, Codes.label, h0, h1, h2, h3, h4, h5, h6, h7, h8, h9, h10, h11, h12, h13, h14, if_true, if_false]
  by_cases h16 : m = c.SPEED7
  · left; subst h16; simp only [decode, Codes.label, h0, h1, h2, h3, h4, h5, h6, h7, h8, h9, h10, h11, h12, h13, h14, h15, if_true, if_false]
  by_cases h17 : m = c.SPEED8
  · left; subst h17; simp only [decode, Codes.label, h0, h1, h2, h3, h4, h5, h6, h7, h8, h9, h10, h11, h12, h13, h14, h15, h16, if_true, if_false]
  by_cases h18 : m = c.SPEED9
  · left; subst h18; simp only [decode, Codes.label, h0, h1, h2, h3, h4, h5, h6, h7, h8, h9, h10, h11, h12, h13, h14, h15, h16, h17, if_true, if_false]
  by_cases h19 : m = c.SPEED10
  · left; subst h19; simp only [decode, Codes.label, h0, h1, h2, h3, h4, h5, h6, h7, h8, h9, h10, h11, h12, h13, h14, h15, h16, h17, h18, if_true, if_false]
  right
  simp only [decode, Codes.labels, h0, h1, h2, h3, h4, h5, h6, h7, h8, h9, h10, h11, h12, h13, h14, h15, h16, h17, h18, h19, if_false, List.mem_cons, List.mem_singleton,
    List.not_mem_nil, or_self, not_false_eq_true, and_self]

/-- Only the cases of the speed labels write `speedMult`. -/
theorem speedMult_execCommand_decode (c : Codes) (s : State) (m : Int)
    (hm : m ∉ c.speedLabels) : (execCommand s (decode c m)).1.speedMult = s.speedMult := by
  rcases decode_spec c m with h | ⟨h, -⟩
  · generalize decode c m = cmd at h
    cases cmd <;> simp only [Codes.label, Option.some.injEq] at h <;>
      first
        | rfl
        | (exfalso; apply hm; rw [← h]; simp [Codes.speedLabels])
  · rw [h]; rfl

theorem discrete_execCommand (s : State) (cmd : Command) (h : Discrete s) :
    Discrete (execCommand s cmd).1 := by
  obtain ⟨⟨k, hk, hs⟩, ⟨j, hj, ht⟩⟩ := h
  have hf : (Flt.fin (k / 10)).mul (.fin 5) = .fin (5 * k / 10) := by
    rw [Flt.fin_mul]; congr 1; ring
  have hr : (Flt.fin (-1)).mul ((Flt.fin (k / 10)).mul (.fin 5)) = .fin (-(5 * k / 10)) := by
    rw [Flt.fin_mul, Flt.fin_mul]; congr 1; ring
  have keep : Discrete s := ⟨⟨k, hk, hs⟩, ⟨j, hj, ht⟩⟩
  have fwd : Discrete { s with targetAngle := s.speedMult.mul (.fin 5) } :=
    ⟨⟨k, hk, hs⟩, ⟨k, hk, Or.inl (by show s.speedMult.mul (.fin 5) = _; rw [hs, hf])⟩⟩
  have bwd : Discrete { s with targetAngle := (Flt.fin (-1)).mul (s.speedMult.mul (.fin 5)) } :=
    ⟨⟨k, hk, hs⟩, ⟨k, hk, Or.inr (by
      show (Flt.fin (-1)).mul (s.speedMult.mul (.fin 5)) = _; rw [hs, hr])⟩⟩
  have spd : ∀ n : ℕ, n ≤ 10 → Discrete { s with speedMult := .fin (n / 10) } :=
    fun n hn => ⟨⟨n, hn, rfl⟩, ⟨j, hj, ht⟩⟩
  cases cmd
  case STOP => exact ⟨⟨k, hk, hs⟩, ⟨0, by norm_num, Or.inl (by simp [execCommand])⟩⟩
  case FORWARD => exact fwd
  case REVERSE => exact bwd
  case LEFT => exact keep
  case RIGHT => exact keep
  case FORLEFT => exact fwd
  case FORRIGHT => exact fwd
  case BACKLEFT => exact bwd
  case BACKRIGHT => exact bwd
  case SPEED0 => have := spd 0 (by norm_num); simpa [execCommand] using this
  case SPEED1 => have := spd 1 (by norm_num); simpa [execCommand] using this
  case SPEED2 => have := spd 2 (by norm_num); simpa [execCommand] using this
  case SPEED3 => have := spd 3 (by norm_num); simpa [execCommand] using this
  case SPEED4 => have := spd 4 (by norm_num); simpa [execCommand] using this
  case SPEED5 => have := spd 5 (by norm_num); simpa [execCommand] using this
  case SPEED6 => have := spd 6 (by norm_num); simpa [execCommand] using this
  case SPEED7 => have := spd 7 (by norm_num); simpa [execCommand] using this
  case SPEED8 => have := spd 8 (by norm_num); simpa [execCommand] using this
  case SPEED9 => have := spd 9 (by norm_num); simpa [execCommand] using this
  case SPEED10 => have := spd 10 (by norm_num); simpa [execCommand] using this
  case default => exact keep

theorem discrete_waitLoop (c : Codes) (ev : List WaitEvent) :
    ∀ s : State, Discrete s → Discrete (waitLoop c s ev).1 := by
  induction ev with
  | nil => intro s h; simpa [waitLoop] using h
  | cons e es ih =>
    intro s h
    unfold waitLoop
    split
    · cases e with
      | lateInterrupt n => exact h
      | serial b => exact ih _ (discrete_execCommand _ _ h)
      | idle => exact ih _ h
    · exact h

/-- The branches after the wait loop write neither the setpoint nor the speed
multiplier. -/
theorem setpoint_cycle (s : State) (i : LoopInput) (r : State × List Action)
    (hr : cycle s i = some r) :
    r.1.targetAngle = s.targetAngle ∧ r.1.speedMult = s.speedMult := by
  unfold cycle at hr
  split_ifs at hr
  · cases hr; exact ⟨rfl, rfl⟩
  · cases hr; exact ⟨rfl, rfl⟩
  · split at hr
    · cases hr
    · cases hr; exact ⟨rfl, rfl⟩
  · cases hr; exact ⟨rfl, rfl⟩

theorem discrete_loop (c : Codes) (s : State) (i : LoopInput) (r : State × List Action)
    (h : Discrete s) (hr : loop c s i = some r) : Discrete r.1 := by
  unfold loop at hr
  split_ifs at hr
  · cases hr; exact h
  · simp only at hr
    split at hr
    · cases hr
    · rename_i r1 hc
      cases hr
      have hw : Discrete (readStatus (waitLoop c s i.waitEvents).1 i) :=
        discrete_waitLoop c i.waitEvents s h
      have hs := setpoint_cycle _ i r1 hc
      unfold Discrete
      rw [hs.1, hs.2]
      exact hw

theorem discrete_run (c : Codes) (inputs : List LoopInput) :
    ∀ (s : State) (r : State × List Action), Discrete s → run c s inputs = some r →
      Discrete r.1 := by
  induction inputs with
  | nil => intro s r h hr; simp [run] at hr; cases hr; exact h
  | cons i is ih =>
    intro s r h hr
    unfold run at hr
    split at hr
    · cases hr
    · rename_i s1 t1 h1
      split at hr
      · cases hr
      · rename_i s2 t2 h2
        cases hr
        exact ih s1 (s2, t2) (discrete_loop c s i (s1, t1) h h1) h2

theorem discrete_setup (a b d : Nat) : Discrete (setup a b d initState) := by
  have h : Discrete initState :=
    ⟨⟨0, by norm_num, by simp [initState]⟩, ⟨0, by norm_num, Or.inl (by simp [initState])⟩⟩
  simp only [setup]
  split_ifs <;> exact h

theorem serialBytes_append (a b : List Action) :
    serialBytes (a ++ b) = serialBytes a ++ serialBytes b := by
  induction a with
  | nil => rfl
  | cons x xs ih => cases x <;> simp [serialBytes, ih]

theorem serialBytes_execCommand (s : State) (cmd : Command) :
    serialBytes (execCommand s cmd).2 = [] := by
  cases cmd <;> rfl

theorem serialBytes_processByte (c : Codes) (s : State) (b : Nat) :
    serialBytes (processByte c s b).2 = [b] := by
  unfold processByte
  simp [serialBytes, serialBytes_execCommand]

theorem fifoCount_processByte (c : Codes) (s : State) (b : Nat) :
    (processByte c s b).1.fifoCount = s.fifoCount ∧
      (processByte c s b).1.packetSize = s.packetSize := by
  have h := cycleVars_processByte c s b
  simp only [cycleVars, Prod.mk.injEq] at h
  exact ⟨h.2, h.1.2.2.2.1⟩

/-- A wait loop that is entered reads every serial byte offered to it. -/
theorem serialBytes_waitLoop (c : Codes) (ev : List WaitEvent) :
    ∀ s : State, s.fifoCount < s.packetSize →
      serialBytes (waitLoop c s ev).2 = eventBytes ev := by
  induction ev with
  | nil => intro s _; rfl
  | cons e es ih =>
    intro s h
    unfold waitLoop
    rw [if_pos h]
    cases e with
    | lateInterrupt n => rfl
    | idle => exact ih s h
    | serial b =>
      have hf := fifoCount_processByte c s b
      simp only [serialBytes_append, serialBytes_processByte, eventBytes]
      rw [ih _ (by rw [hf.1, hf.2]; exact h)]
      rfl

theorem serialBytes_cycle (s : State) (i : LoopInput) (r : State × List Action)
    (hr : cycle s i = some r) : serialBytes r.2 = [] := by
  unfold cycle at hr
  split_ifs at hr
  · cases hr; rfl
  · cases hr; rfl
  · split at hr
    · cases hr
    · rename_i d hd
      cases hr
      simp only [serialBytes_append, pidCycle]
      have : ∀ n : Nat, serialBytes (List.replicate n Action.getFIFOBytes) = [] := by
        intro n
        induction n with
        | zero => rfl
        | succ k ih => simpa [List.replicate_succ, serialBytes] using ih
      rw [this]
      rfl
  · cases hr; rfl

/-- The bytes that one call of `loop()` reads are those of its wait loop. -/
theorem serialBytes_loop (c : Codes) (s : State) (i : LoopInput) (r : State × List Action)
    (hd : s.dmpReady = true) (hr : loop c s i = some r) :
    serialBytes r.2 = serialBytes (waitLoop c s i.waitEvents).2 := by
  unfold loop at hr
  simp only [hd, Bool.true_eq_false, if_false] at hr
  split at hr
  · cases hr
  · rename_i r1 hc
    cases hr
    simp only [serialBytes_append, serialBytes_cycle _ i r1 hc, List.append_nil]
    simp [serialBytes]

/-- Calls of `loop()` with DMP not ready only blink and keep all globals. -/
theorem run_not_ready (c : Codes) (s : State) (hd : s.dmpReady = false)
    (inputs : List LoopInput) :
    ∃ t, run c s inputs = some (s, t) ∧ t.length = 4 * inputs.length ∧
      ∀ a ∈ t, a = .digitalWrite 9 true ∨ a = .delay 1000 ∨ a = .digitalWrite 9 false := by
  induction inputs with
  | nil => exact ⟨[], rfl, rfl, by simp⟩
  | cons i is ih =>
    obtain ⟨t, ht, hl, hm⟩ := ih
    refine ⟨[.digitalWrite 9 true, .delay 1000, .digitalWrite 9 false, .delay 1000] ++ t,
      ?_, ?_, ?_⟩
    · unfold run loop
      simp only [hd, if_true, ht]
    · simp only [List.length_append, List.length_cons, List.length_nil, hl]
      omega
    · intro a ha
      rcases List.mem_append.1 ha with h | h
      · simp only [List.mem_cons, List.mem_singleton, List.not_mem_nil, or_false] at h
        tauto
      · exact hm a h

/-- The drain loop with enough fuel: it ends with the count reduced modulo the
packet size, after one read per whole packet, on the last packet read. -/
theorem drain_result (p : Nat) (pk : Nat → Packet) (hp : 0 < p) :
    ∀ (fuel cnt k : Nat) (buf : Packet), cnt < fuel →
      drain p pk fuel cnt k buf
        = some (cnt % p, k + cnt / p, if cnt < p then buf else pk (k + cnt / p - 1)) := by
  intro fuel
  induction fuel with
  | zero => intro cnt k buf h; omega
  | succ n ih =>
    intro cnt k buf h
    unfold drain
    by_cases hge : cnt ≥ p
    · rw [if_pos hge, ih (cnt - p) (k + 1) (pk k) (by omega)]
      have h1 : (cnt - p) % p = cnt % p := (Nat.mod_eq_sub_mod hge).symm
      have h2 : cnt / p = (cnt - p) / p + 1 := by
        rw [Nat.div_eq cnt p, if_pos ⟨hp, hge⟩]
      rw [if_neg (by omega : ¬ cnt < p), h1, h2]
      by_cases hlt : cnt - p < p
      · have h3 : (cnt - p) / p = 0 := Nat.div_eq_of_lt hlt
        rw [if_pos hlt, h3]
        simp
      · rw [if_neg hlt]
        have h3 : 0 < (cnt - p) / p := Nat.div_pos (by omega) hp
        congr 3
        · omega
        · congr 1
          omega
    · rw [if_neg hge, if_pos (by omega : cnt < p)]
      have h3 : cnt / p = 0 := Nat.div_eq_of_lt (by omega)
      rw [Nat.mod_eq_of_lt (by omega : cnt < p), h3]
      rfl

/-- The data-ready branch: drain, then the control cycle on the last packet. -/
theorem cycle_dataReady (s : State) (i : LoopInput) (hp : 0 < s.packetSize)
    (h1 : s.packetSize ≤ s.fifoCount)
    (h2 : s.mpuIntStatus &&& _BV MPU6050_INTERRUPT_FIFO_OFLOW_BIT = 0)
    (h3 : s.fifoCount < 1024)
    (h4 : s.mpuIntStatus &&& _BV MPU6050_INTERRUPT_DMP_INT_BIT ≠ 0) :
    cycle s i = some
      ((pidCycle (afterDrain s i) i.millis).1,
        List.replicate (s.fifoCount / s.packetSize) Action.getFIFOBytes ++
          (pidCycle (afterDrain s i) i.millis).2) := by
  unfold cycle
  rw [if_neg (not_lt.mpr h1), if_neg (by simp [h2]; omega), if_pos h4,
    drain_result s.packetSize i.packets hp _ _ 0 s.fifoBuffer (Nat.lt_succ_self _)]
  simp only [Nat.zero_add, if_neg (not_lt.mpr h1), afterDrain]

/-- A call of `loop()` that did not call `millis()` left the globals of the control
cycle alone; one that did ran the control cycle on globals that differ from those at
entry only by the commands of the wait loop, the status read and the drain. -/
theorem loop_pidVars (c : Codes) (s : State) (i : LoopInput) (r : State × List Action)
    (hr : loop c s i = some r) :
    (Action.millis ∉ r.2 → pidVars r.1 = pidVars s) ∧
    (Action.millis ∈ r.2 → ∃ s2, r.1 = (pidCycle s2 i.millis).1 ∧ pidVars s2 = pidVars s ∧
      s2.targetAngle = (waitLoop c s i.waitEvents).1.targetAngle) := by
  unfold loop at hr
  split_ifs at hr with hd
  · cases hr
    exact ⟨fun _ => rfl, fun h => by simp at h⟩
  · simp only at hr
    split at hr
    · cases hr
    · rename_i r1 hc
      cases hr
      have hv : pidVars (readStatus (waitLoop c s i.waitEvents).1 i) = pidVars s :=
        pidVars_waitLoop c i.waitEvents s
      have hw : Action.millis ∉ (waitLoop c s i.waitEvents).2 := by
        intro hm
        rcases trace_waitLoop c _ s _ hm with h | ⟨b, h⟩ | ⟨m, p, h, -⟩ <;> cases h
      unfold cycle at hc
      split_ifs at hc
      · cases hc
        exact ⟨fun _ => hv, fun h => by simp [hw] at h⟩
      · cases hc
        exact ⟨fun _ => hv, fun h => by simp [hw] at h⟩
      · split at hc
        · cases hc
        · rename_i d hd2
          cases hc
          refine ⟨fun h => absurd (by simp [pidCycle]) h, fun _ => ⟨_, rfl, hv, rfl⟩⟩
      · cases hc
        exact ⟨fun _ => hv, fun h => by simp [hw] at h⟩

/-- Calls of `loop()` none of which runs the control cycle keep its globals. -/
theorem run_pidVars (c : Codes) (inputs : List LoopInput) :
    ∀ (s : State) (r : State × List Action), run c s inputs = some r →
      Action.millis ∉ r.2 → pidVars r.1 = pidVars s := by
  induction inputs with
  | nil => intro s r hr _; simp [run] at hr; cases hr; rfl
  | cons i is ih =>
    intro s r hr hm
    unfold run at hr
    split at hr
    · cases hr
    · rename_i s1 t1 h1
      split at hr
      · cases hr
      · rename_i s2 t2 h2
        cases hr
        simp only [List.mem_append, not_or] at hm
        rw [ih s1 (s2, t2) h2 hm.2]
        exact (loop_pidVars c s i (s1, t1) h1).1 hm.1

theorem subU32_of_le (a b : Nat) (h : b ≤ a) (ha : a < 4294967296) : subU32 a b = a - b := by
  unfold subU32
  omega

theorem subU32_of_lt (a b : Nat) (h : a < b) (hb : b < 4294967296) :
    subU32 a b = a + 4294967296 - b := by
  unfold subU32
  omega

/-- A call of `loop()` that runs the control cycle records its timestamp and angle. -/
theorem loop_records (c : Codes) (s : State) (i : LoopInput) (r : State × List Action)
    (hr : loop c s i = some r) (hran : Action.millis ∈ r.2) :
    r.1.prevTime = i.millis % 4294967296 ∧ r.1.prevAngle = r.1.currAngle ∧
      r.1.sampleTime = .fin ((subU32 (i.millis % 4294967296) s.prevTime : ℕ) : ℚ) := by
  obtain ⟨s2, h2, hv2, -⟩ := (loop_pidVars c s i r hr).2 hran
  simp only [pidVars, Prod.mk.injEq] at hv2
  refine ⟨by rw [h2]; rfl, by rw [h2]; rfl, ?_⟩
  rw [h2, ← hv2.2.2.2.2.2.2.2.2.1]
  rfl

/-- A call with no wait event that reads the data-ready bit, no overflow bit and at
least one packet below the ceiling returns and runs the control cycle. -/
theorem loop_dataReady (c : Codes) (s : State) (i : LoopInput)
    (hd : s.dmpReady = true) (hp : 0 < s.packetSize) (hev : i.waitEvents = [])
    (h1 : s.packetSize ≤ i.fifoCount % 65536)
    (h2 : (i.intStatus % 256) &&& _BV MPU6050_INTERRUPT_FIFO_OFLOW_BIT = 0)
    (h3 : i.fifoCount % 65536 < 1024)
    (h4 : (i.intStatus % 256) &&& _BV MPU6050_INTERRUPT_DMP_INT_BIT ≠ 0) :
    ∃ r, loop c s i = some r ∧ Action.millis ∈ r.2 := by
  have hcy := cycle_dataReady (readStatus (waitLoop c s i.waitEvents).1 i) i
    (by rw [hev]; exact hp) (by rw [hev]; exact h1) h2 h3 h4
  refine ⟨_, loop_of_cycle c s i _ hd hcy, ?_⟩
  simp [pidCycle]

/-- A call with no wait event that reads a count at the ceiling is skipped. -/
theorem run_overflow (c : Codes) (s : State) (i : LoopInput)
    (hd : s.dmpReady = true) (hp : s.packetSize ≤ 1024) (hev : i.waitEvents = [])
    (hc : 1024 ≤ i.fifoCount % 65536) :
    run c s [i] = some (readStatus s i,
      [.getIntStatus, .getFIFOCount, .resetFIFO, .println]) := by
  have hcy := cycle_overflow (readStatus (waitLoop c s i.waitEvents).1 i) i
    (by rw [hev]; exact le_trans hp hc) (Or.inr hc)
  have hl := loop_of_cycle c s i _ hd hcy
  rw [hev] at hl
  unfold run
  rw [hl]
  simp [run, waitLoop]

/-! ## The claims -/

/-- C1. Anti-windup invariant: from the initial globals, after `setup()` and any
sequence of `loop()` calls with arbitrary wait events, status bytes, FIFO counts,
packets and timestamps, `errorSum` is a number in the interval from -300 to 300;
and every such sequence of calls returns when the packet size is positive. -/
theorem errorSum_within_bounds (c : Codes) (status intStatus size : Nat)
    (inputs : List LoopInput) :
    (0 < size % 65536 →
      ∃ r, run c (setup status intStatus size initState) inputs = some r) ∧
    ∀ s t, run c (setup status intStatus size initState) inputs = some (s, t) →
      Flt.between (-300) 300 s.errorSum := by
  refine ⟨fun h => run_total c inputs _ (setup_config status intStatus size h), ?_⟩
  intro s t h
  exact (sane_run c inputs _ (s, t) (sane_setup _ _ _ _ sane_initState) h).2.2.2


/-- Concrete run for C1: one cycle with roll 18000 drives the sum to the upper bound 300. -/
theorem errorSum_within_bounds_witness :
    (run asciiCodes (setup 0 0 42 initState) [mkInput [] 2 42 18000 10]).map
        (fun r => r.1.errorSum) = some (.fin 300) ∧
    ∃ s t, run asciiCodes (setup 0 0 42 initState) [mkInput [] 2 42 18000 10] = some (s, t) ∧
      Flt.between (-300) 300 s.errorSum := by
  constructor
  · simp [run, loop, cycle, readStatus, waitLoop, setup, initState, mkInput, drain, _BV,
      MPU6050_INTERRUPT_FIFO_OFLOW_BIT, MPU6050_INTERRUPT_DMP_INT_BIT, land_2_16, pidCycle,
      constrain, Flt.gt]
    norm_num [DEG_TO_RAD]
  · obtain ⟨⟨s, t⟩, h⟩ :=
      (errorSum_within_bounds asciiCodes 0 0 42 [mkInput [] 2 42 18000 10]).1 (by decide)
    exact ⟨s, t, h, (errorSum_within_bounds asciiCodes 0 0 42 _).2 s t h⟩

/-- C2. Output clamp at a zero sample time: two successive control cycles that read
the same roll (1) at the same `millis()` value (5) give `sampleTime = 0` and a zero
angle difference, the derivative term is 0/0, and both `motorPower` and the clamped
`spMotorPower` are NaN, which is not a number between -255 and 255. -/
theorem spMotorPower_nan_at_zero_tick :
    (run asciiCodes (setup 0 0 42 initState)
        [mkInput [] 2 42 1 5, mkInput [] 2 42 1 5]).map
      (fun r => (r.1.sampleTime, r.1.motorPower, r.1.spMotorPower))
      = some (.fin 0, .nan, .nan) ∧
    ¬ Flt.between (-255) 255 Flt.nan := by
  constructor
  · simp [run, loop, cycle, readStatus, waitLoop, setup, initState, mkInput, drain, _BV,
      MPU6050_INTERRUPT_FIFO_OFLOW_BIT, MPU6050_INTERRUPT_DMP_INT_BIT, land_2_16, pidCycle,
      derivativeTerm, constrain_fin, subU32, Kp, Ki, Kd, Flt.div]
    norm_num [clampQ, DEG_TO_RAD, constrain, Flt.gt, Flt.lt, Flt.add, Flt.sub, Flt.neg]
  · simp [Flt.between]

/-- C3 (as amended). In every state reached from the start by calls of `loop()`
whose control cycles all have a nonzero sample time: each control cycle passed
`drive` a value between -255 and 255; `spMotorPower`, its negation (LEFT, RIGHT) and
its half (the diagonal commands) are between -255 and 255; the doubled value that
the diagonal commands pass is between -510 and 510; every steering `drive` call of
the run, and every one a command issues in the reached state, is of one of these
four forms and between -510 and 510. -/
theorem drive_range_amended (c : Codes) (status intStatus size : Nat)
    (inputs : List LoopInput) (s : State) (t : List Action)
    (hrun : run c (setup status intStatus size initState) inputs = some (s, t))
    (hticks : ticksNonzero c (setup status intStatus size initState) inputs) :
    (∀ p, Action.driveBoth p ∈ t → Flt.between (-255) 255 p) ∧
    (∀ m p, Action.drive m p ∈ t → Flt.between (-510) 510 p) ∧
    Flt.between (-255) 255 s.spMotorPower ∧
    Flt.between (-255) 255 s.spMotorPower.neg ∧
    Flt.between (-255) 255 (s.spMotorPower.div (.fin 2)) ∧
    Flt.between (-510) 510 (s.spMotorPower.mul (.fin 2)) ∧
    ∀ cmd m p, Action.drive m p ∈ (execCommand s cmd).2 →
      (p = s.spMotorPower ∨ p = s.spMotorPower.neg ∨ p = s.spMotorPower.div (.fin 2) ∨
        p = s.spMotorPower.mul (.fin 2)) ∧ Flt.between (-510) 510 p := by
  obtain ⟨g1, g2, g3⟩ := good_run c inputs _ (s, t) (good_setup _ _ _) hrun hticks
  have hb := between_steering _ g1.2
  exact ⟨g2, g3, g1.2, hb.1, hb.2.1, hb.2.2.1, fun cmd m p h =>
    ⟨drive_execCommand s cmd m p h, drive_execCommand_between s cmd m p g1.2 h⟩⟩

/-- Concrete run against C3 as stated: after a cycle that saturates at 255, the FORLEFT byte passes 510 to `drive`. -/
theorem drive_range_counterexample :
    (run asciiCodes (setup 0 0 42 initState)
        [mkInput [] 2 42 10 10, mkInput [.serial 71] 0 0 0 20]).map (fun r => r.2)
      = some [.getIntStatus, .getFIFOCount, .getFIFOBytes, .millis, .driveBoth (.fin 255),
          .serialRead 71, .drive .LMotor (.fin (255 / 2)), .drive .RMotor (.fin 510),
          .getIntStatus, .getFIFOCount] ∧
    ¬ Flt.between (-255) 255 (.fin 510) := by
  constructor
  · simp [run, loop, cycle, readStatus, waitLoop, processByte, execCommand, decode, toChar,
      asciiCodes, setup, initState, mkInput, drain, _BV,
      MPU6050_INTERRUPT_FIFO_OFLOW_BIT, MPU6050_INTERRUPT_DMP_INT_BIT, land_2_16, pidCycle,
      derivativeTerm, constrain_fin, subU32, Kp, Ki, Kd, Flt.div]
    norm_num [clampQ, DEG_TO_RAD]
  · norm_num [Flt.between]

/-- Concrete run for the amended C3: the run of the counterexample has nonzero sample times and meets the amended bounds. -/
theorem drive_range_amended_witness :
    ticksNonzero asciiCodes (setup 0 0 42 initState)
        [mkInput [] 2 42 10 10, mkInput [.serial 71] 0 0 0 20] ∧
    ∃ s t, run asciiCodes (setup 0 0 42 initState)
        [mkInput [] 2 42 10 10, mkInput [.serial 71] 0 0 0 20] = some (s, t) ∧
      (∀ p, Action.driveBoth p ∈ t → Flt.between (-255) 255 p) ∧
      (∀ m p, Action.drive m p ∈ t → Flt.between (-510) 510 p) ∧
      Flt.between (-255) 255 s.spMotorPower := by
  have ht : ticksNonzero asciiCodes (setup 0 0 42 initState)
      [mkInput [] 2 42 10 10, mkInput [.serial 71] 0 0 0 20] := by
    simp [ticksNonzero, zeroTick, loop, cycle, readStatus, waitLoop, processByte, execCommand,
      decode, toChar, asciiCodes, setup, initState, mkInput, drain, _BV,
      MPU6050_INTERRUPT_FIFO_OFLOW_BIT, MPU6050_INTERRUPT_DMP_INT_BIT, land_2_16, pidCycle,
      subU32]
  obtain ⟨⟨s, t⟩, h⟩ := run_total asciiCodes
    [mkInput [] 2 42 10 10, mkInput [.serial 71] 0 0 0 20] (setup 0 0 42 initState)
    (Or.inr (by decide))
  have hc := drive_range_amended asciiCodes 0 0 42 _ s t h ht
  exact ⟨ht, s, t, h, hc.1, hc.2.1, hc.2.2.1⟩

/-- C4 (as amended). The sign of `spMotorPower` is the sign of `motorPower`, whatever
the sign of `error`. In the example (roll 10, `targetAngle = 0`, `prevAngle` the
radian value of 8, sample time 10, previous `errorSum` not negative) `error` is the
radian value of 10 and positive, `motorPower` is the value of the PID expression,
and `spMotorPower` is 255: between -255 and 255, positive and not negative. -/
theorem restoring_direction_amended (s : State) (now : Nat) :
    ((pidCycle s now).1.spMotorPower.lt (.fin 0) = (pidCycle s now).1.motorPower.lt (.fin 0) ∧
     (Flt.fin 0).lt (pidCycle s now).1.spMotorPower
        = (Flt.fin 0).lt (pidCycle s now).1.motorPower) ∧
    ∀ e : ℚ, s.fifoBuffer.roll = 10 → s.targetAngle = .fin 0 →
      s.prevAngle = .fin (8 * DEG_TO_RAD) → s.errorSum = .fin e → 0 ≤ e →
      subU32 (now % 4294967296) s.prevTime = 10 →
      (pidCycle s now).1.error = .fin (10 * DEG_TO_RAD) ∧
      (Flt.fin 0).lt (pidCycle s now).1.error = true ∧
      (pidCycle s now).1.motorPower
        = .fin (Kp * (10 * DEG_TO_RAD)
            + Ki * clampQ (e + 10 * DEG_TO_RAD) (-300) 300 * 10
            - Kd * (10 * DEG_TO_RAD - 8 * DEG_TO_RAD) / 10) ∧
      (pidCycle s now).1.spMotorPower = .fin 255 ∧
      Flt.between (-255) 255 (pidCycle s now).1.spMotorPower ∧
      (Flt.fin 0).lt (pidCycle s now).1.spMotorPower = true ∧
      (pidCycle s now).1.spMotorPower.lt (.fin 0) = false := by
  constructor
  · exact constrain_sign _ (-255) 255 (by norm_num) (by norm_num)
  · intro e hroll ht hp he he0 hdt
    have hD := DEG_TO_RAD_bounds
    obtain ⟨h1, h2, -, h4, h5⟩ := pidCycle_fin s now 0 e (8 * DEG_TO_RAD) ht he hp
      (by rw [hdt]; decide)
    simp only [hroll, hdt, sub_zero, Nat.cast_ofNat] at h1 h2 h4 h5
    have hc := clampQ_nonneg (e + 10 * DEG_TO_RAD) (-300) 300 (by linarith) (by norm_num)
    have hbig : (255 : ℚ) < Kp * (10 * DEG_TO_RAD)
        + Ki * clampQ (e + 10 * DEG_TO_RAD) (-300) 300 * 10
        - Kd * (10 * DEG_TO_RAD - 8 * DEG_TO_RAD) / 10 := by
      simp only [Kp, Ki, Kd]
      nlinarith
    rw [clampQ_of_gt _ _ _ (by norm_num) hbig] at h5
    refine ⟨h1, ?_, h4, h5, ?_, ?_, ?_⟩
    · rw [h1]; simp only [Flt.fin_lt, decide_eq_true_eq]; linarith
    · rw [h5]; norm_num [Flt.between]
    · rw [h5]; simp [Flt.fin_lt]
    · rw [h5]; simp [Flt.fin_lt]

/-- Concrete run against C4 as stated: the second cycle has the data of the example, a positive error, and the power 255. -/
theorem restoring_direction_counterexample :
    (run asciiCodes (setup 0 0 42 initState) [mkInput [] 2 42 8 10]).map
        (fun r => (r.1.targetAngle, r.1.prevAngle, r.1.prevTime))
      = some (.fin 0, .fin (8 * DEG_TO_RAD), 10) ∧
    (run asciiCodes (setup 0 0 42 initState)
        [mkInput [] 2 42 8 10, mkInput [] 2 42 10 20]).map
        (fun r => (r.1.error, r.1.sampleTime, r.1.spMotorPower))
      = some (.fin (10 * DEG_TO_RAD), .fin 10, .fin 255) ∧
    (Flt.fin 0).lt (.fin (10 * DEG_TO_RAD)) = true ∧
    (Flt.fin 255).lt (.fin 0) = false := by
  refine ⟨?_, ?_, ?_, ?_⟩
  · simp [run, loop, cycle, readStatus, waitLoop, setup, initState, mkInput, drain, _BV,
      MPU6050_INTERRUPT_FIFO_OFLOW_BIT, MPU6050_INTERRUPT_DMP_INT_BIT, land_2_16, pidCycle]
  · simp [run, loop, cycle, readStatus, waitLoop, setup, initState, mkInput, drain, _BV,
      MPU6050_INTERRUPT_FIFO_OFLOW_BIT, MPU6050_INTERRUPT_DMP_INT_BIT, land_2_16, pidCycle,
      derivativeTerm, constrain_fin, subU32, Kp, Ki, Kd, Flt.div]
    norm_num [clampQ, DEG_TO_RAD]
  · norm_num [Flt.fin_lt, DEG_TO_RAD]
  · norm_num [Flt.fin_lt]

/-- Concrete cycle for the amended C4, on the globals of the example. -/
theorem restoring_direction_amended_witness :
    (pidCycle tiltState 10).1.spMotorPower = .fin 255 ∧
    (Flt.fin 0).lt (pidCycle tiltState 10).1.error = true :=
  have h := (restoring_direction_amended tiltState 10).2 0
    rfl rfl rfl rfl (le_refl 0) (by decide)
  ⟨h.2.2.2.1, h.2.1⟩

/-- C5 (as amended). With `speedMult` equal to the number `q`, the FORWARD command
sets `targetAngle` to `q * 5`, with no conversion to radians (2.5 for `q = 0.5`),
and the REVERSE command sets it to the negative of that value; the new globals do
not depend on the previous `targetAngle`. -/
theorem setpoint_mapping_amended (c : Codes) (hc : c.distinct) (s : State) (q : ℚ)
    (hs : s.speedMult = .fin q) (b : Nat) :
    (toChar b = c.FORWARD →
      (processByte c s b).1.targetAngle = .fin (q * 5) ∧
      ∀ x, (processByte c { s with targetAngle := x } b).1 = (processByte c s b).1) ∧
    (toChar b = c.REVERSE →
      (processByte c s b).1.targetAngle = .fin (-(q * 5)) ∧
      ∀ x, (processByte c { s with targetAngle := x } b).1 = (processByte c s b).1) := by
  have hd := decode_label c hc
  constructor
  · intro hb
    have h1 : decode c (toChar b) = .FORWARD := by rw [hb]; exact hd.2.1
    constructor
    · rw [processByte_eq c s b _ h1]
      simp [execCommand, hs]
    · intro x
      rw [processByte_eq c s b _ h1, processByte_eq c _ b _ h1]
      rfl
  · intro hb
    have h1 : decode c (toChar b) = .REVERSE := by rw [hb]; exact hd.2.2.1
    constructor
    · rw [processByte_eq c s b _ h1]
      simp [execCommand, hs]
    · intro x
      rw [processByte_eq c s b _ h1, processByte_eq c _ b _ h1]
      rfl

/-- Concrete input against C5 as stated: after SPEED5, FORWARD sets the setpoint to 2.5, not to the radian value near 0.0436. -/
theorem setpoint_mapping_counterexample :
    (processByte asciiCodes initState 53).1.speedMult = .fin (1 / 2) ∧
    (processByte asciiCodes (processByte asciiCodes initState 53).1 70).1.targetAngle
      = .fin (5 / 2) ∧
    (5 / 2 : ℚ) ≠ 5 * (1 / 2) * DEG_TO_RAD ∧
    ¬ ((43 / 1000 : ℚ) ≤ 5 / 2 ∧ (5 / 2 : ℚ) ≤ 44 / 1000) := by
  refine ⟨?_, ?_, ?_, ?_⟩
  · norm_num [processByte, execCommand, decode, toChar, asciiCodes, initState]
  · norm_num [processByte, execCommand, decode, toChar, asciiCodes, initState]
  · norm_num [DEG_TO_RAD]
  · norm_num

/-- Concrete input for the amended C5: speed 0.5, bytes F and B. -/
theorem setpoint_mapping_amended_witness :
    (processByte asciiCodes { initState with speedMult := .fin (1 / 2) } 70).1.targetAngle
      = .fin (1 / 2 * 5) ∧
    (processByte asciiCodes { initState with speedMult := .fin (1 / 2) } 66).1.targetAngle
      = .fin (-(1 / 2 * 5)) :=
  ⟨((setpoint_mapping_amended asciiCodes (by decide)
      { initState with speedMult := .fin (1 / 2) } (1 / 2) rfl 70).1 (by decide)).1,
   ((setpoint_mapping_amended asciiCodes (by decide)
      { initState with speedMult := .fin (1 / 2) } (1 / 2) rfl 66).2 (by decide)).1⟩

/-- C6. Zero-interval guard: there is none. After a first cycle at time 5 with roll 0
(sample time 5, derivative term 0), a second cycle at the same time 5 with roll 1
has `sampleTime = 0` and divides by it: its derivative term
`Kd * (currAngle - prevAngle) / sampleTime` is plus infinity, neither 0 nor the
term of the first cycle, `motorPower` is minus infinity and `spMotorPower` is -255. -/
theorem zero_interval_division :
    (run asciiCodes (setup 0 0 42 initState) [mkInput [] 2 42 0 5]).map
        (fun r => (r.1.prevAngle, r.1.prevTime, r.1.sampleTime,
          derivativeTerm r.1.currAngle initState.prevAngle r.1.sampleTime))
      = some (.fin 0, 5, .fin 5, .fin 0) ∧
    (run asciiCodes (setup 0 0 42 initState)
        [mkInput [] 2 42 0 5, mkInput [] 2 42 1 5]).map
        (fun r => (r.1.sampleTime, derivativeTerm r.1.currAngle (.fin 0) r.1.sampleTime,
          r.1.motorPower, r.1.spMotorPower))
      = some (.fin 0, .pinf, .ninf, .fin (-255)) ∧
    Flt.pinf ≠ .fin 0 := by
  refine ⟨?_, ?_, by simp⟩
  · simp [run, loop, cycle, readStatus, waitLoop, setup, initState, mkInput, drain, _BV,
      MPU6050_INTERRUPT_FIFO_OFLOW_BIT, MPU6050_INTERRUPT_DMP_INT_BIT, land_2_16, pidCycle,
      derivativeTerm, subU32, Kd, Flt.div]
  · simp [run, loop, cycle, readStatus, waitLoop, setup, initState, mkInput, drain, _BV,
      MPU6050_INTERRUPT_FIFO_OFLOW_BIT, MPU6050_INTERRUPT_DMP_INT_BIT, land_2_16, pidCycle,
      derivativeTerm, constrain_fin, subU32, Kp, Ki, Kd, Flt.div, Flt.infOfSign]
    norm_num [clampQ, DEG_TO_RAD, Flt.sub, Flt.neg, Flt.add, constrain, Flt.lt, Flt.gt]

/-- C7. Stop is an exact, idempotent reset: the STOP command sets `targetAngle` to
exactly 0 and records the byte in `moveDirection`; no other global changes (so
`speedMult`, `errorSum`, `prevAngle`, `prevTime`, `motorPower` and `spMotorPower`
keep their values), no `drive` call is issued, and processing the command any
number of times in a row gives the same globals as processing it once. -/
theorem stop_resets_setpoint (c : Codes) (s : State) (b : Nat) (hb : toChar b = c.STOP) :
    (processByte c s b).1 = { s with moveDirection := c.STOP, targetAngle := .fin 0 } ∧
    (processByte c s b).2 = [.serialRead b] ∧
    (processByte c s b).1.targetAngle = .fin 0 ∧
    (processByte c s b).1.speedMult = s.speedMult ∧
    (processByte c s b).1.errorSum = s.errorSum ∧
    (processByte c s b).1.prevAngle = s.prevAngle ∧
    (processByte c s b).1.prevTime = s.prevTime ∧
    (processByte c s b).1.motorPower = s.motorPower ∧
    (processByte c s b).1.spMotorPower = s.spMotorPower ∧
    (∀ m p, Action.drive m p ∉ (processByte c s b).2) ∧
    (∀ p, Action.driveBoth p ∉ (processByte c s b).2) ∧
    ∀ n : Nat, (fun x => (processByte c x b).1)^[n + 1] s = (processByte c s b).1 := by
  have h1 : decode c (toChar b) = .STOP := by rw [hb]; simp [decode]
  have h2 : ∀ x : State, processByte c x b
      = ({ x with moveDirection := c.STOP, targetAngle := .fin 0 }, [.serialRead b]) := by
    intro x
    rw [processByte_eq c x b _ h1, hb]
    rfl
  refine ⟨by rw [h2], by rw [h2], by rw [h2], by rw [h2], by rw [h2], by rw [h2],
    by rw [h2], by rw [h2], by rw [h2], ?_, ?_, ?_⟩
  · intro m p; rw [h2]; simp
  · intro p; rw [h2]; simp
  · intro n
    induction n with
    | zero => rfl
    | succ k ih =>
      rw [Function.iterate_succ_apply', ih]
      simp only [h2]

/-- Concrete input for C7: the byte S with setpoint 5 and speed 1. -/
theorem stop_resets_setpoint_witness :
    (processByte asciiCodes
        { initState with targetAngle := .fin 5, speedMult := .fin 1 } 83).1.targetAngle
      = .fin 0 ∧
    (processByte asciiCodes
        { initState with targetAngle := .fin 5, speedMult := .fin 1 } 83).1.speedMult
      = .fin 1 :=
  ⟨(stop_resets_setpoint asciiCodes
      { initState with targetAngle := .fin 5, speedMult := .fin 1 } 83 (by decide)).2.2.1,
   (stop_resets_setpoint asciiCodes
      { initState with targetAngle := .fin 5, speedMult := .fin 1 } 83 (by decide)).2.2.2.1⟩

/-- C9 (as amended). Overflow by status bit: with DMP ready and the FIFO overflow bit
set in the status read, `loop()` returns without running the control cycle (its
globals are unchanged, no packet is read, no control-cycle `drive` call is issued)
for every count read; it resets the FIFO when the count read is at least one packet
size, and does not reset it when the count read is smaller than one packet. -/
theorem overflow_by_status_amended (c : Codes) (s : State) (i : LoopInput)
    (hd : s.dmpReady = true)
    (hbit : (i.intStatus % 256) &&& _BV MPU6050_INTERRUPT_FIFO_OFLOW_BIT ≠ 0) :
    (s.packetSize ≤ i.fifoCount % 65536 →
      loop c s i = some (readStatus (waitLoop c s i.waitEvents).1 i,
        (waitLoop c s i.waitEvents).2
          ++ [.getIntStatus, .getFIFOCount, .resetFIFO, .println])) ∧
    (i.fifoCount % 65536 < s.packetSize →
      loop c s i = some (readStatus (waitLoop c s i.waitEvents).1 i,
        (waitLoop c s i.waitEvents).2 ++ [.getIntStatus, .getFIFOCount])) ∧
    (∃ t, loop c s i = some (readStatus (waitLoop c s i.waitEvents).1 i, t) ∧
      Action.getFIFOBytes ∉ t ∧ Action.millis ∉ t ∧ ∀ p, Action.driveBoth p ∉ t) ∧
    pidVars (readStatus (waitLoop c s i.waitEvents).1 i) = pidVars s := by
  have hv : pidVars (readStatus (waitLoop c s i.waitEvents).1 i) = pidVars s :=
    pidVars_waitLoop c i.waitEvents s
  have hps : (readStatus (waitLoop c s i.waitEvents).1 i).packetSize = s.packetSize :=
    packetSize_waitLoop c i.waitEvents s
  have hw : ∀ a ∈ (waitLoop c s i.waitEvents).2,
      a ≠ .getFIFOBytes ∧ a ≠ .millis ∧ ∀ p, a ≠ .driveBoth p := by
    intro a ha
    rcases trace_waitLoop c _ s a ha with h | ⟨b, h⟩ | ⟨m, p, h, -⟩ <;> subst h <;> simp
  have h1 : s.packetSize ≤ i.fifoCount % 65536 →
      loop c s i = some (readStatus (waitLoop c s i.waitEvents).1 i,
        (waitLoop c s i.waitEvents).2
          ++ [.getIntStatus, .getFIFOCount, .resetFIFO, .println]) := by
    intro h
    have hcy := cycle_overflow (readStatus (waitLoop c s i.waitEvents).1 i) i
      (by rw [hps]; exact h) (Or.inl hbit)
    simpa using loop_of_cycle c s i _ hd hcy
  have h2 : i.fifoCount % 65536 < s.packetSize →
      loop c s i = some (readStatus (waitLoop c s i.waitEvents).1 i,
        (waitLoop c s i.waitEvents).2 ++ [.getIntStatus, .getFIFOCount]) := by
    intro h
    have hcy := cycle_spurious (readStatus (waitLoop c s i.waitEvents).1 i) i
      (by rw [hps]; exact h)
    simpa using loop_of_cycle c s i _ hd hcy
  refine ⟨h1, h2, ?_, hv⟩
  rcases Nat.lt_or_ge (i.fifoCount % 65536) s.packetSize with h | h
  · refine ⟨_, h2 h, ?_, ?_, ?_⟩
    · intro hm
      rcases List.mem_append.1 hm with hm | hm
      · exact (hw _ hm).1 rfl
      · simp at hm
    · intro hm
      rcases List.mem_append.1 hm with hm | hm
      · exact (hw _ hm).2.1 rfl
      · simp at hm
    · intro p hm
      rcases List.mem_append.1 hm with hm | hm
      · exact (hw _ hm).2.2 p rfl
      · simp at hm
  · refine ⟨_, h1 h, ?_, ?_, ?_⟩
    · intro hm
      rcases List.mem_append.1 hm with hm | hm
      · exact (hw _ hm).1 rfl
      · simp at hm
    · intro hm
      rcases List.mem_append.1 hm with hm | hm
      · exact (hw _ hm).2.1 rfl
      · simp at hm
    · intro p hm
      rcases List.mem_append.1 hm with hm | hm
      · exact (hw _ hm).2.2 p rfl
      · simp at hm

/-- Concrete call against C9 as stated: overflow bit set, count 10 below the packet size 42, no FIFO reset. -/
theorem overflow_by_status_counterexample :
    (16 &&& _BV MPU6050_INTERRUPT_FIFO_OFLOW_BIT ≠ 0) ∧
    loop asciiCodes (setup 0 0 42 initState) (mkInput [] 16 10 0 7)
      = some (readStatus (setup 0 0 42 initState) (mkInput [] 16 10 0 7),
          [.getIntStatus, .getFIFOCount]) ∧
    Action.resetFIFO ∉ [Action.getIntStatus, Action.getFIFOCount] := by
  refine ⟨by decide, ?_, by decide⟩
  simp [loop, cycle, readStatus, waitLoop, setup, initState, mkInput]

/-- Concrete call for the amended C9: overflow bit set, count 84. -/
theorem overflow_by_status_amended_witness :
    loop asciiCodes (setup 0 0 42 initState) (mkInput [] 16 84 0 7)
      = some (readStatus (waitLoop asciiCodes (setup 0 0 42 initState) []).1
            (mkInput [] 16 84 0 7),
          (waitLoop asciiCodes (setup 0 0 42 initState) []).2
            ++ [.getIntStatus, .getFIFOCount, .resetFIFO, .println]) :=
  (overflow_by_status_amended asciiCodes (setup 0 0 42 initState) (mkInput [] 16 84 0 7)
    (by decide) (by decide)).1 (by decide)

/-- C10 (as amended). LEFT and RIGHT leave `targetAngle` and every other global but
the recorded byte `moveDirection` unchanged and issue two `drive` calls with
`spMotorPower` and its negation. The diagonal commands do write the setpoint:
FORLEFT and FORRIGHT set `targetAngle` to `speedMult * 5`, BACKLEFT and BACKRIGHT to
`-1 * (speedMult * 5)`; they change no other global but `moveDirection` and issue
two `drive` calls with the half and the double of `spMotorPower`. -/
theorem steering_effect_amended (c : Codes) (hc : c.distinct) (s : State) (b : Nat) :
    (toChar b = c.LEFT → processByte c s b =
      ({ s with moveDirection := c.LEFT },
        [.serialRead b, .drive .LMotor s.spMotorPower.neg,
          .drive .RMotor s.spMotorPower])) ∧
    (toChar b = c.RIGHT → processByte c s b =
      ({ s with moveDirection := c.RIGHT },
        [.serialRead b, .drive .LMotor s.spMotorPower,
          .drive .RMotor s.spMotorPower.neg])) ∧
    (toChar b = c.FORLEFT → processByte c s b =
      ({ s with moveDirection := c.FORLEFT, targetAngle := s.speedMult.mul (.fin 5) },
        [.serialRead b, .drive .LMotor (s.spMotorPower.div (.fin 2)),
          .drive .RMotor (s.spMotorPower.mul (.fin 2))])) ∧
    (toChar b = c.FORRIGHT → processByte c s b =
      ({ s with moveDirection := c.FORRIGHT, targetAngle := s.speedMult.mul (.fin 5) },
        [.serialRead b, .drive .LMotor (s.spMotorPower.mul (.fin 2)),
          .drive .RMotor (s.spMotorPower.div (.fin 2))])) ∧
    (toChar b = c.BACKLEFT → processByte c s b =
      ({ s with moveDirection := c.BACKLEFT,
                targetAngle := (Flt.fin (-1)).mul (s.speedMult.mul (.fin 5)) },
        [.serialRead b, .drive .LMotor (s.spMotorPower.mul (.fin 2)),
          .drive .RMotor (s.spMotorPower.div (.fin 2))])) ∧
    (toChar b = c.BACKRIGHT → processByte c s b =
      ({ s with moveDirection := c.BACKRIGHT,
                targetAngle := (Flt.fin (-1)).mul (s.speedMult.mul (.fin 5)) },
        [.serialRead b, .drive .LMotor (s.spMotorPower.mul (.fin 2)),
          .drive .RMotor (s.spMotorPower.div (.fin 2))])) := by
  have hd := decode_label c hc
  refine ⟨?_, ?_, ?_, ?_, ?_, ?_⟩ <;> intro hb
  · rw [processByte_eq c s b .LEFT (by rw [hb]; exact hd.2.2.2.1), hb]; rfl
  · rw [processByte_eq c s b .RIGHT (by rw [hb]; exact hd.2.2.2.2.1), hb]; rfl
  · rw [processByte_eq c s b .FORLEFT (by rw [hb]; exact hd.2.2.2.2.2.1), hb]; rfl
  · rw [processByte_eq c s b .FORRIGHT (by rw [hb]; exact hd.2.2.2.2.2.2.1), hb]; rfl
  · rw [processByte_eq c s b .BACKLEFT (by rw [hb]; exact hd.2.2.2.2.2.2.2.1), hb]; rfl
  · rw [processByte_eq c s b .BACKRIGHT (by rw [hb]; exact hd.2.2.2.2.2.2.2.2.1), hb]; rfl

/-- Concrete input against C10 as stated: after SPEED5, FORLEFT changes the setpoint from 0 to 2.5. -/
theorem steering_effect_counterexample :
    (processByte asciiCodes initState 53).1.targetAngle = .fin 0 ∧
    (processByte asciiCodes (processByte asciiCodes initState 53).1 71).1.targetAngle
      = .fin (5 / 2) ∧
    Flt.fin (5 / 2) ≠ .fin 0 := by
  refine ⟨?_, ?_, ?_⟩
  · norm_num [processByte, execCommand, decode, toChar, asciiCodes, initState]
  · norm_num [processByte, execCommand, decode, toChar, asciiCodes, initState]
  · norm_num

/-- Concrete input for the amended C10: the byte L on the initial globals. -/
theorem steering_effect_amended_witness :
    processByte asciiCodes initState 76 =
      ({ initState with moveDirection := 76 },
        [.serialRead 76, .drive .LMotor (Flt.fin 0).neg, .drive .RMotor (.fin 0)]) :=
  (steering_effect_amended asciiCodes (by decide) initState 76).1 (by decide)

/-- C11. Unrecognized bytes are ignored: a byte whose `char` value is none of the case
labels is stored in `moveDirection` and selects the default case; `targetAngle`,
`speedMult` and the globals of the control cycle (`error`, `errorSum`, `prevAngle`,
`prevTime`, `motorPower`, `spMotorPower`) keep their values and no `drive` call is
issued. -/
theorem unrecognized_byte_ignored (c : Codes) (s : State) (b : Nat)
    (h : toChar b ∉ c.labels) :
    processByte c s b = ({ s with moveDirection := toChar b }, [.serialRead b]) ∧
    (processByte c s b).1.targetAngle = s.targetAngle ∧
    (processByte c s b).1.speedMult = s.speedMult ∧
    pidVars (processByte c s b).1 = pidVars s ∧
    (processByte c s b).1.error = s.error ∧
    (processByte c s b).1.errorSum = s.errorSum ∧
    (processByte c s b).1.prevAngle = s.prevAngle ∧
    (processByte c s b).1.prevTime = s.prevTime ∧
    (processByte c s b).1.motorPower = s.motorPower ∧
    (processByte c s b).1.spMotorPower = s.spMotorPower ∧
    driveCalls (processByte c s b).2 = [] := by
  have h1 : processByte c s b = ({ s with moveDirection := toChar b }, [.serialRead b]) := by
    rw [processByte_eq c s b .default (decode_default c _ h)]
    rfl
  rw [h1]
  exact ⟨rfl, rfl, rfl, rfl, rfl, rfl, rfl, rfl, rfl, rfl, rfl⟩

/-- Concrete input for C11: the byte Z (90) on the initial globals. -/
theorem unrecognized_byte_ignored_witness :
    processByte asciiCodes initState 90
      = ({ initState with moveDirection := 90 }, [.serialRead 90]) :=
  (unrecognized_byte_ignored asciiCodes initState 90 (by decide)).1

/-- C12. Speed-scale commands: with pairwise distinct labels, the command of level `k`
(0 to 10) sets `speedMult` to `k / 10`, records the byte and changes nothing else
(the setpoint and the globals of the control cycle keep their values, no `drive`
call); a byte that is no speed label leaves `speedMult` unchanged; in every state
reached from the start `speedMult` is one of the eleven levels; and a FORWARD or
REVERSE byte that follows the speed command computes the setpoint from the new
level. -/
theorem speed_commands (c : Codes) (hc : c.distinct) :
    (∀ (s : State) (b k : Nat), c.speedLabels[k]? = some (toChar b) →
      k ≤ 10 ∧
      processByte c s b
        = ({ s with moveDirection := toChar b, speedMult := .fin (k / 10) },
            [.serialRead b]) ∧
      (processByte c s b).1.targetAngle = s.targetAngle ∧
      pidVars (processByte c s b).1 = pidVars s) ∧
    (∀ (s : State) (b : Nat), toChar b ∉ c.speedLabels →
      (processByte c s b).1.speedMult = s.speedMult) ∧
    (∀ (status intStatus size : Nat) (inputs : List LoopInput) (s : State)
        (t : List Action),
      run c (setup status intStatus size initState) inputs = some (s, t) →
      ∃ k : ℕ, k ≤ 10 ∧ s.speedMult = .fin (k / 10)) ∧
    (∀ (s : State) (b b2 k : Nat), c.speedLabels[k]? = some (toChar b) →
      (toChar b2 = c.FORWARD →
        (processByte c (processByte c s b).1 b2).1.targetAngle = .fin (k / 10 * 5)) ∧
      (toChar b2 = c.REVERSE →
        (processByte c (processByte c s b).1 b2).1.targetAngle
          = .fin (-1 * (k / 10 * 5)))) := by
  have hd := decode_label c hc
  obtain ⟨-, d1, d2, -, -, -, -, -, -, e0, e1, e2, e3, e4, e5, e6, e7, e8, e9, e10⟩ := hd
  have key : ∀ (s : State) (b k : Nat), c.speedLabels[k]? = some (toChar b) →
      k ≤ 10 ∧ processByte c s b
        = ({ s with moveDirection := toChar b, speedMult := .fin (k / 10) },
            [.serialRead b]) := by
    intro s b k h
    have hk : k < 11 := by
      by_contra hk
      have : c.speedLabels[k]? = none := by
        apply List.getElem?_eq_none
        simp only [Codes.speedLabels, List.length_cons, List.length_nil]
        omega
      rw [this] at h
      cases h
    refine ⟨by omega, ?_⟩
    interval_cases k <;>
      simp only [Codes.speedLabels, List.getElem?_cons_zero, List.getElem?_cons_succ,
        Option.some.injEq] at h
    · rw [processByte_eq c s b .SPEED0 (by rw [← h]; exact e0)]
      simp [execCommand]
    · rw [processByte_eq c s b .SPEED1 (by rw [← h]; exact e1)]
      simp [execCommand]
    · rw [processByte_eq c s b .SPEED2 (by rw [← h]; exact e2)]
      simp [execCommand]
    · rw [processByte_eq c s b .SPEED3 (by rw [← h]; exact e3)]
      simp [execCommand]
    · rw [processByte_eq c s b .SPEED4 (by rw [← h]; exact e4)]
      simp [execCommand]
    · rw [processByte_eq c s b .SPEED5 (by rw [← h]; exact e5)]
      simp [execCommand]
    · rw [processByte_eq c s b .SPEED6 (by rw [← h]; exact e6)]
      simp [execCommand]
    · rw [processByte_eq c s b .SPEED7 (by rw [← h]; exact e7)]
      simp [execCommand]
    · rw [processByte_eq c s b .SPEED8 (by rw [← h]; exact e8)]
      simp [execCommand]
    · rw [processByte_eq c s b .SPEED9 (by rw [← h]; exact e9)]
      simp [execCommand]
    · rw [processByte_eq c s b .SPEED10 (by rw [← h]; exact e10)]
      simp [execCommand]
  refine ⟨?_, ?_, ?_, ?_⟩
  · intro s b k h
    obtain ⟨hk, hp⟩ := key s b k h
    refine ⟨hk, hp, ?_, ?_⟩
    · rw [hp]
    · rw [hp]; rfl
  · intro s b h
    unfold processByte
    exact speedMult_execCommand_decode c _ _ h
  · intro status intStatus size inputs s t h
    exact (discrete_run c inputs _ (s, t) (discrete_setup _ _ _) h).1
  · intro s b b2 k h
    obtain ⟨-, hp⟩ := key s b k h
    rw [hp]
    constructor
    · intro h2
      rw [processByte_eq c _ b2 .FORWARD (by rw [h2]; exact d1)]
      simp [execCommand]
    · intro h2
      rw [processByte_eq c _ b2 .REVERSE (by rw [h2]; exact d2)]
      simp [execCommand]

/-- Concrete input for C12: the byte 7 (55) sets the level 7, and F (70) after it
sets the setpoint to 3.5. -/
theorem speed_commands_witness :
    (processByte asciiCodes initState 55).1.speedMult = .fin ((7 : ℕ) / 10) ∧
    (processByte asciiCodes (processByte asciiCodes initState 55).1 70).1.targetAngle
      = .fin ((7 : ℕ) / 10 * 5) :=
  ⟨by rw [((speed_commands asciiCodes (by decide)).1 initState 55 7 (by decide)).2.1],
   ((speed_commands asciiCodes (by decide)).2.2.2 initState 55 70 7 (by decide)).1
     (by decide)⟩

/-- C13 (as amended). With DMP ready and a positive packet size, a call of `loop()`
returns and reads command bytes in its wait loop only: when the wait loop is entered
(fewer bytes than a packet are counted) it reads every byte that becomes available
before the interrupt is seen, none, one or several; when a full packet is already
counted it reads none, whatever is pending. -/
theorem command_bytes_per_iteration (c : Codes) (s : State) (i : LoopInput)
    (hd : s.dmpReady = true) (hp : 0 < s.packetSize) :
    ∃ r, loop c s i = some r ∧
      (s.fifoCount < s.packetSize → serialBytes r.2 = eventBytes i.waitEvents) ∧
      (s.packetSize ≤ s.fifoCount → serialBytes r.2 = []) := by
  obtain ⟨r, hr⟩ := loop_total c s i (Or.inr hp)
  have h := serialBytes_loop c s i r hd hr
  refine ⟨r, hr, ?_, ?_⟩
  · intro hlt
    rw [h, serialBytes_waitLoop c _ s hlt]
  · intro hge
    rw [h, waitLoop_skip c s _ hge]
    rfl

/-- Concrete calls against C13 as stated: a call whose wait loop sees two bytes
reads both, and a call entered with the count 1024 of an overflow still tracked
reads none of the two bytes offered. -/
theorem command_bytes_counterexample :
    (loop asciiCodes (setup 0 0 42 initState)
        (mkInput [.serial 53, .serial 70] 0 0 0 3)).map (fun r => serialBytes r.2)
      = some [53, 70] ∧
    (run asciiCodes (setup 0 0 42 initState)
        [mkInput [] 0 1024 0 3, mkInput [.serial 53, .serial 70] 0 0 0 4]).map
        (fun r => serialBytes r.2)
      = some [] := by
  constructor
  · simp [loop, cycle, readStatus, waitLoop, processByte, execCommand, decode, toChar,
      asciiCodes, setup, initState, mkInput, serialBytes]
  · simp [run, loop, cycle, readStatus, waitLoop, processByte, execCommand, decode, toChar,
      asciiCodes, setup, initState, mkInput, serialBytes, _BV,
      MPU6050_INTERRUPT_FIFO_OFLOW_BIT]

/-- Concrete call for the amended C13: three wait passes, two of them with a byte. -/
theorem command_bytes_per_iteration_witness :
    ∃ r, loop asciiCodes (setup 0 0 42 initState)
        (mkInput [.serial 53, .idle, .serial 70] 0 0 0 3) = some r ∧
      serialBytes r.2 = [53, 70] := by
  obtain ⟨r, hr, h1, -⟩ := command_bytes_per_iteration asciiCodes (setup 0 0 42 initState)
    (mkInput [.serial 53, .idle, .serial 70] 0 0 0 3) (by decide) (by decide)
  exact ⟨r, hr, h1 (by decide)⟩

/-- C14. The two backward diagonal commands coincide: in every state BACKLEFT and
BACKRIGHT write the same setpoint and issue the same two `drive` calls (left motor
doubled, right motor halved), so processing their bytes has the same effect on the
setpoint, the speed multiplier and the drive calls. With BACKRIGHT left out, the
nineteen remaining cases have pairwise different effects on the probe globals
(setpoint 7, speed multiplier 0.5, power 100). -/
theorem back_diagonals_coincide :
    (∀ s : State, execCommand s .BACKLEFT = execCommand s .BACKRIGHT) ∧
    effect (processByte asciiCodes probeState 72)
      = effect (processByte asciiCodes probeState 74) ∧
    effect (processByte asciiCodes probeState 72)
      = (.fin (-(5 / 2)), .fin (1 / 2),
          [.drive .LMotor (.fin 200), .drive .RMotor (.fin 50)]) ∧
    ((Command.recognized.erase .BACKRIGHT).map
      (fun a => effect (execCommand probeState a))).Nodup := by
  refine ⟨fun s => rfl, ?_, ?_, ?_⟩
  · norm_num [effect, processByte, execCommand, decode, toChar, asciiCodes, probeState,
      initState, driveCalls]
  · norm_num [effect, processByte, execCommand, decode, toChar, asciiCodes, probeState,
      initState, driveCalls, Flt.fin_div]
  · have he : Command.recognized.erase .BACKRIGHT =
        [.STOP, .FORWARD, .REVERSE, .LEFT, .RIGHT, .FORLEFT, .FORRIGHT, .BACKLEFT,
         .SPEED0, .SPEED1, .SPEED2, .SPEED3, .SPEED4, .SPEED5, .SPEED6, .SPEED7, .SPEED8,
         .SPEED9, .SPEED10] := by decide
    rw [he]
    simp only [List.map_cons, List.map_nil, effect, execCommand, probeState, initState,
      driveCalls, Flt.fin_mul, Flt.fin_neg, Flt.fin_div _ _ (two_ne_zero)]
    norm_num [List.nodup_cons]
    simp

/-- C15. Initialization failure is permanent and inert: `dmpReady` is true after
`setup()` exactly when the status byte of `dmpInitialize` is 0; when it is not 0,
every sequence of `loop()` calls returns, leaves every global as `setup()` left it
(so `dmpReady` stays false and the setpoint, the speed multiplier and the globals of
the control cycle keep their initial values), and issues only the pin writes and
delays of the blink signal: no FIFO access, no `Serial.read`, no `drive` call. -/
theorem init_failure_inert (c : Codes) (status intStatus size : Nat) :
    ((setup status intStatus size initState).dmpReady = true ↔ status % 256 = 0) ∧
    (status % 256 ≠ 0 →
      setup status intStatus size initState = { initState with devStatus := status % 256 } ∧
      ∀ inputs : List LoopInput, ∃ t,
        run c (setup status intStatus size initState) inputs
          = some (setup status intStatus size initState, t) ∧
        t.length = 4 * inputs.length ∧
        (∀ a ∈ t, a = .digitalWrite 9 true ∨ a = .delay 1000 ∨ a = .digitalWrite 9 false) ∧
        serialBytes t = [] ∧ driveCalls t = [] ∧
        Action.getFIFOBytes ∉ t ∧ Action.getFIFOCount ∉ t ∧ Action.resetFIFO ∉ t) := by
  constructor
  · simp only [setup]
    split_ifs with h
    · simp [h]
    · simp [h, initState]
  · intro hs
    have he : setup status intStatus size initState
        = { initState with devStatus := status % 256 } := by
      simp only [setup]
      rw [if_neg hs]
    refine ⟨he, ?_⟩
    intro inputs
    have hd : (setup status intStatus size initState).dmpReady = false := by
      rw [he]; rfl
    obtain ⟨t, ht, hl, hm⟩ := run_not_ready c _ hd inputs
    have hno : ∀ x : Action, (x ≠ .digitalWrite 9 true ∧ x ≠ .delay 1000 ∧
        x ≠ .digitalWrite 9 false) → x ∉ t := by
      intro x hx hxt
      rcases hm x hxt with h | h | h
      · exact hx.1 h
      · exact hx.2.1 h
      · exact hx.2.2 h
    have hlist : ∀ l : List Action,
        (∀ a ∈ l, a = .digitalWrite 9 true ∨ a = .delay 1000 ∨ a = .digitalWrite 9 false) →
        serialBytes l = [] ∧ driveCalls l = [] := by
      intro l
      induction l with
      | nil => intro _; exact ⟨rfl, rfl⟩
      | cons x xs ih =>
        intro hx
        have h1 := ih (fun a ha => hx a (List.mem_cons_of_mem _ ha))
        rcases hx x (List.mem_cons_self _ _) with h | h | h <;> subst h <;>
          simpa [serialBytes, driveCalls] using h1
    exact ⟨t, ht, hl, hm, (hlist t hm).1, (hlist t hm).2,
      hno _ (by simp), hno _ (by simp), hno _ (by simp)⟩

/-- Concrete run for C15: status 1, two calls of `loop()` with pending bytes. -/
theorem init_failure_inert_witness :
    ∃ t, run asciiCodes (setup 1 0 42 initState)
        [mkInput [.serial 70] 2 42 3 5, mkInput [.serial 76] 2 42 3 9]
      = some (setup 1 0 42 initState, t) ∧ t.length = 8 ∧ driveCalls t = [] := by
  obtain ⟨t, h1, h2, -, -, h3, -⟩ := ((init_failure_inert asciiCodes 1 0 42).2 (by decide)).2
    [mkInput [.serial 70] 2 42 3 5, mkInput [.serial 76] 2 42 3 9]
  exact ⟨t, h1, h2, h3⟩

/-- C16. Drain ends on the freshest packet: for a packet size `p > 0` and a count
`c >= p`, the drain loop ends (the fuel `c + 1` suffices) after exactly `c / p` packet
reads, at least one, with the tracked count `c % p`, smaller than `p`, and with the
buffer holding the last packet read, number `c / p - 1` of the FIFO; the data-ready
branch of `loop()` then decodes the roll of that packet. -/
theorem drain_freshest (p c : Nat) (hp : 0 < p) (hc : p ≤ c) (pk : Nat → Packet)
    (buf : Packet) :
    drain p pk (c + 1) c 0 buf = some (c % p, c / p, pk (c / p - 1)) ∧
    c % p < p ∧ 0 < c / p ∧
    ∀ (s : State) (i : LoopInput), s.packetSize = p → s.fifoCount = c →
      s.mpuIntStatus &&& _BV MPU6050_INTERRUPT_FIFO_OFLOW_BIT = 0 → c < 1024 →
      s.mpuIntStatus &&& _BV MPU6050_INTERRUPT_DMP_INT_BIT ≠ 0 →
      ∃ r, cycle s i = some r ∧ r.1.fifoCount = c % p ∧
        r.1.fifoBuffer = i.packets (c / p - 1) ∧
        r.1.ypr2 = .fin (i.packets (c / p - 1)).roll ∧
        r.2 = List.replicate (c / p) Action.getFIFOBytes
          ++ [.millis, .driveBoth r.1.spMotorPower] := by
  refine ⟨?_, Nat.mod_lt _ hp, Nat.div_pos hc hp, ?_⟩
  · rw [drain_result p pk hp (c + 1) c 0 buf (Nat.lt_succ_self _)]
    simp only [Nat.zero_add, if_neg (not_lt.mpr hc)]
  · intro s i h1 h2 h3 h4 h5
    subst h1 h2
    exact ⟨_, cycle_dataReady s i hp hc h3 h4 h5, rfl, rfl, rfl, rfl⟩

/-- Concrete input for C16: packet size 42 and count 100, two reads, count 16 left,
the second packet in the buffer. -/
theorem drain_freshest_witness :
    drain 42 (fun k => ⟨k⟩) 101 100 0 ⟨7⟩ = some (16, 2, ⟨1⟩) := by
  have h := (drain_freshest 42 100 (by decide) (by decide) (fun k => ⟨k⟩) ⟨7⟩).1
  simpa using h

/-- C17. PID law: in a state that satisfies the invariant of the globals (every
reachable state does), a control cycle with a nonzero sample time `dt`, current angle
`c` (the roll times `DEG_TO_RAD`), setpoint `t`, previous error sum `S` and previous
angle `a` sets `error = c - t`, `errorSum = clamp (S + error)` to the interval from
-300 to 300, and `motorPower = 75000 * error + 100 * errorSum * dt - 750 * (c - a) / dt`
with the clamped `errorSum`; `dt` is the timestamp minus `prevTime` modulo 2^32. -/
theorem pid_law (s : State) (now : Nat) (hs : Sane s)
    (hdt : subU32 (now % 4294967296) s.prevTime ≠ 0) :
    ∃ c t S a dt : ℚ,
      c = s.fifoBuffer.roll * DEG_TO_RAD ∧ s.targetAngle = .fin t ∧
      s.errorSum = .fin S ∧ s.prevAngle = .fin a ∧
      dt = ((subU32 (now % 4294967296) s.prevTime : ℕ) : ℚ) ∧ dt ≠ 0 ∧
      (pidCycle s now).1.currAngle = .fin c ∧
      (pidCycle s now).1.error = .fin (c - t) ∧
      (pidCycle s now).1.errorSum = .fin (clampQ (S + (c - t)) (-300) 300) ∧
      (pidCycle s now).1.sampleTime = .fin dt ∧
      (pidCycle s now).1.motorPower
        = .fin (75000 * (c - t) + 100 * clampQ (S + (c - t)) (-300) 300 * dt
            - 750 * (c - a) / dt) := by
  obtain ⟨h1, -, h3, h4⟩ := hs
  obtain ⟨t, ht⟩ := (Flt.isFinite_iff _).1 h1
  obtain ⟨a, ha⟩ := (Flt.isFinite_iff _).1 h3
  obtain ⟨S, hS, -⟩ := (Flt.between_iff _ _ _).1 h4
  obtain ⟨e1, e2, e3, e4, -⟩ := pidCycle_fin s now t S a ht hS ha hdt
  refine ⟨s.fifoBuffer.roll * DEG_TO_RAD, t, S, a, _, rfl, ht, hS, ha, rfl, ?_, rfl,
    e1, e2, e3, ?_⟩
  · exact_mod_cast hdt
  · rw [e4]
    simp only [Kp, Ki, Kd]

/-- Concrete cycle for C17: the globals of the end-to-end example at time 10. -/
theorem pid_law_witness :
    ∃ c t S a dt : ℚ,
      c = tiltState.fifoBuffer.roll * DEG_TO_RAD ∧ tiltState.targetAngle = .fin t ∧
      tiltState.errorSum = .fin S ∧ tiltState.prevAngle = .fin a ∧
      dt = ((subU32 (10 % 4294967296) tiltState.prevTime : ℕ) : ℚ) ∧ dt ≠ 0 ∧
      (pidCycle tiltState 10).1.currAngle = .fin c ∧
      (pidCycle tiltState 10).1.error = .fin (c - t) ∧
      (pidCycle tiltState 10).1.errorSum = .fin (clampQ (S + (c - t)) (-300) 300) ∧
      (pidCycle tiltState 10).1.sampleTime = .fin dt ∧
      (pidCycle tiltState 10).1.motorPower
        = .fin (75000 * (c - t) + 100 * clampQ (S + (c - t)) (-300) 300 * dt
            - 750 * (c - a) / dt) :=
  pid_law tiltState 10
    ⟨rfl, rfl, rfl, by norm_num [tiltState, initState, Flt.between]⟩ (by decide)

/-- C18. Sample time spans skipped cycles. Between two control cycles: let a call of
`loop()` run the control cycle at the timestamp `j.millis`, let calls none of which
runs the control cycle (too few bytes, overflow, no data-ready bit) follow, and let
the next call run the control cycle at the timestamp `i.millis`. With `T` and `N`
the two timestamps as 32-bit values, the skipped calls keep `prevTime = T` and
`prevAngle`, and the sample time of the second cycle is `N - T` when `T <= N` and
`N + 2^32 - T` when the counter wrapped (`N < T`); the cycle records `N` in
`prevTime` and the current angle in `prevAngle`. First cycle: after `setup()` and
calls that run no control cycle, `prevTime` is 0 and the sample time is `N`. -/
theorem sampleTime_spans_skipped (c : Codes) :
    (∀ (s0 s1 : State) (j i : LoopInput) (rj r : State × List Action)
        (skips : List LoopInput) (t1 : List Action),
      loop c s0 j = some rj → Action.millis ∈ rj.2 →
      run c rj.1 skips = some (s1, t1) → Action.millis ∉ t1 →
      loop c s1 i = some r → Action.millis ∈ r.2 →
      rj.1.prevTime = j.millis % 4294967296 ∧
      s1.prevTime = j.millis % 4294967296 ∧
      s1.prevAngle = rj.1.currAngle ∧
      (j.millis % 4294967296 ≤ i.millis % 4294967296 →
        r.1.sampleTime
          = .fin ((i.millis % 4294967296 - j.millis % 4294967296 : ℕ) : ℚ)) ∧
      (i.millis % 4294967296 < j.millis % 4294967296 →
        r.1.sampleTime
          = .fin ((i.millis % 4294967296 + 4294967296 - j.millis % 4294967296 : ℕ) : ℚ)) ∧
      r.1.prevTime = i.millis % 4294967296 ∧
      r.1.prevAngle = r.1.currAngle) ∧
    (∀ (status intStatus size : Nat) (s1 : State) (i : LoopInput)
        (r : State × List Action) (skips : List LoopInput) (t1 : List Action),
      run c (setup status intStatus size initState) skips = some (s1, t1) →
      Action.millis ∉ t1 →
      loop c s1 i = some r → Action.millis ∈ r.2 →
      s1.prevTime = 0 ∧
      r.1.sampleTime = .fin ((i.millis % 4294967296 : ℕ) : ℚ) ∧
      r.1.prevTime = i.millis % 4294967296 ∧
      r.1.prevAngle = r.1.currAngle) := by
  constructor
  · intro s0 s1 j i rj r skips t1 hj hjm hskip hno hi him
    obtain ⟨a1, a2, -⟩ := loop_records c s0 j rj hj hjm
    obtain ⟨b1, b2, b3⟩ := loop_records c s1 i r hi him
    have hv := run_pidVars c skips rj.1 (s1, t1) hskip hno
    simp only [pidVars, Prod.mk.injEq] at hv
    have hT : s1.prevTime = j.millis % 4294967296 := by
      rw [hv.2.2.2.2.2.2.2.2.1, a1]
    have hlt : j.millis % 4294967296 < 4294967296 := Nat.mod_lt _ (by norm_num)
    have hlt2 : i.millis % 4294967296 < 4294967296 := Nat.mod_lt _ (by norm_num)
    refine ⟨a1, hT, by rw [hv.2.2.1, a2], ?_, ?_, b1, b2⟩
    · intro hle
      rw [b3, hT, subU32_of_le _ _ hle hlt2]
    · intro hwrap
      rw [b3, hT, subU32_of_lt _ _ hwrap hlt]
  · intro status intStatus size s1 i r skips t1 hskip hno hi him
    obtain ⟨b1, b2, b3⟩ := loop_records c s1 i r hi him
    have hv := run_pidVars c skips _ (s1, t1) hskip hno
    simp only [pidVars, Prod.mk.injEq] at hv
    have h0 : (setup status intStatus size initState).prevTime = 0 := by
      simp only [setup]
      split_ifs <;> rfl
    have hT : s1.prevTime = 0 := by
      rw [hv.2.2.2.2.2.2.2.2.1, h0]
    refine ⟨hT, ?_, b1, b2⟩
    rw [b3, hT, subU32_of_le _ _ (Nat.zero_le _) (Nat.mod_lt _ (by norm_num))]
    rfl

/-- Concrete runs for C18. Wrapped counter: a cycle at time 4294967290, a skipped
overflow call, then a cycle at time 4 has sample time 10. First cycle: after
`setup()` and a skipped overflow call, a cycle at time 50 has sample time 50. -/
theorem sampleTime_spans_skipped_witness :
    (∃ rj s1 t1 r,
      loop asciiCodes (setup 0 0 42 initState) (mkInput [] 2 42 3 4294967290) = some rj ∧
      run asciiCodes rj.1 [mkInput [] 16 1024 0 4294967293] = some (s1, t1) ∧
      loop asciiCodes s1 (mkInput [] 2 42 5 4) = some r ∧
      s1.prevTime = 4294967290 ∧ r.1.sampleTime = .fin 10 ∧ r.1.prevTime = 4) ∧
    (∃ s1 t1 r,
      run asciiCodes (setup 0 0 42 initState) [mkInput [] 16 1024 0 20] = some (s1, t1) ∧
      loop asciiCodes s1 (mkInput [] 2 42 3 50) = some r ∧
      r.1.sampleTime = .fin 50 ∧ r.1.prevTime = 50) := by
  constructor
  · obtain ⟨rj, hj, hjm⟩ := loop_dataReady asciiCodes (setup 0 0 42 initState)
      (mkInput [] 2 42 3 4294967290) (by decide) (by decide) rfl (by decide) (by decide)
      (by decide) (by decide)
    have hcfg := config_loop asciiCodes _ _ rj hj
    have hd : rj.1.dmpReady = true := by rw [hcfg.1]; decide
    have hp : rj.1.packetSize = 42 := by rw [hcfg.2]; decide
    have hs := run_overflow asciiCodes rj.1 (mkInput [] 16 1024 0 4294967293) hd
      (by rw [hp]; decide) rfl (by decide)
    obtain ⟨r, hi, him⟩ := loop_dataReady asciiCodes
      (readStatus rj.1 (mkInput [] 16 1024 0 4294967293)) (mkInput [] 2 42 5 4)
      hd (by show 0 < rj.1.packetSize; rw [hp]; decide) rfl
      (by show rj.1.packetSize ≤ _; rw [hp]; decide) (by decide) (by decide) (by decide)
    have h := (sampleTime_spans_skipped asciiCodes).1 _ _ _ _ rj r _ _ hj hjm hs
      (by simp) hi him
    refine ⟨rj, _, _, r, hj, hs, hi, ?_, ?_, ?_⟩
    · rw [h.2.1]; rfl
    · rw [h.2.2.2.2.1 (by decide)]
      norm_num [mkInput]
    · rw [h.2.2.2.2.2.1]; rfl
  · have hs := run_overflow asciiCodes (setup 0 0 42 initState) (mkInput [] 16 1024 0 20)
      (by decide) (by decide) rfl (by decide)
    obtain ⟨r, hi, him⟩ := loop_dataReady asciiCodes
      (readStatus (setup 0 0 42 initState) (mkInput [] 16 1024 0 20)) (mkInput [] 2 42 3 50)
      (by decide) (by decide) rfl (by decide) (by decide) (by decide) (by decide)
    have h := (sampleTime_spans_skipped asciiCodes).2 0 0 42 _ _ r _ _ hs (by simp) hi him
    refine ⟨_, _, r, hs, hi, ?_, ?_⟩
    · rw [h.2.1]
      norm_num [mkInput]
    · rw [h.2.2.1]; rfl

/-- C19. Target angle is bounded: in every state reached from the start by calls of
`loop()`, with any command bytes, `targetAngle` is `5 * k / 10` or its negative for a
level `k` from 0 to 10, so it is a number between -5 and 5. -/
theorem targetAngle_bounded (c : Codes) (status intStatus size : Nat)
    (inputs : List LoopInput) (s : State) (t : List Action)
    (h : run c (setup status intStatus size initState) inputs = some (s, t)) :
    (∃ k : ℕ, k ≤ 10 ∧
      (s.targetAngle = .fin (5 * k / 10) ∨ s.targetAngle = .fin (-(5 * k / 10)))) ∧
    Flt.between (-5) 5 s.targetAngle := by
  have hd := (discrete_run c inputs _ (s, t) (discrete_setup _ _ _) h).2
  refine ⟨hd, ?_⟩
  obtain ⟨k, hk, h1 | h1⟩ := hd
  · rw [h1]
    have : (k : ℚ) ≤ 10 := by exact_mod_cast hk
    have h0 : (0 : ℚ) ≤ k := Nat.cast_nonneg k
    simp only [Flt.between]
    constructor <;> linarith
  · rw [h1]
    have : (k : ℚ) ≤ 10 := by exact_mod_cast hk
    have h0 : (0 : ℚ) ≤ k := Nat.cast_nonneg k
    simp only [Flt.between]
    constructor <;> linarith

/-- Concrete run for C19: the bytes q (level 10) and B (reverse) in one wait loop
give the setpoint -5. -/
theorem targetAngle_bounded_witness :
    (run asciiCodes (setup 0 0 42 initState)
        [mkInput [.serial 113, .serial 66] 0 0 0 3]).map (fun r => r.1.targetAngle)
      = some (.fin (-5)) ∧
    ∃ s t, run asciiCodes (setup 0 0 42 initState)
        [mkInput [.serial 113, .serial 66] 0 0 0 3] = some (s, t) ∧
      Flt.between (-5) 5 s.targetAngle := by
  constructor
  · simp [run, loop, cycle, readStatus, waitLoop, processByte, execCommand, decode, toChar,
      asciiCodes, setup, initState, mkInput]
  · obtain ⟨⟨s, t⟩, h⟩ := run_total asciiCodes
      [mkInput [.serial 113, .serial 66] 0 0 0 3] (setup 0 0 42 initState)
      (Or.inr (by decide))
    exact ⟨s, t, h, (targetAngle_bounded asciiCodes 0 0 42 _ s t h).2⟩

end Balance
